import Mathlib

/-!
# jellyfin-m3utostrm: the plugin invoker of init.js

A shallow embedding of `runPlugin` (src/init.js) together with the parts of its
environment the behaviour depends on:

* JavaScript strings as sequences of UTF-16 code units;
* `ToString` as applied by a template literal to each substitution;
* `encodeURIComponent` / `decodeURIComponent` after the abstract operations
  Encode and Decode of ECMA-262 (sections 19.2.6.5 and 19.2.6.6);
* `exec` of child_process as an effect: the request is recorded, the child is a
  function from the command to what the completion callback receives, and the
  callback runs once, when the child is done (the interleaving with the caller
  and the argument checks of `exec` itself are not part of the model);
* `console.log` as appending one line to a log;
* the way of the command from `exec` through `/bin/sh -c` to the argument
  vector of the program, on simple commands of literal words.
-/

set_option linter.unusedVariables false
set_option maxRecDepth 8192

namespace M3uToStrm

/-! ## JavaScript strings -/

/-- A UTF-16 code unit. -/
abbrev CodeUnit := Fin 65536

/-- A JavaScript string value: a finite sequence of UTF-16 code units. -/
abbrev JsString := List CodeUnit

/-- The code unit with the given number (reduced to 16 bits). -/
def cu (n : Nat) : CodeUnit := ⟨n % 65536, Nat.mod_lt _ (by decide)⟩

/-- UTF16EncodeCodePoint of ECMA-262: one code unit for the Basic Multilingual
Plane, a surrogate pair above it. -/
def UTF16EncodeCodePoint (cp : Nat) : JsString :=
  if cp ≤ 0xFFFF then [cu cp]
  else [cu (0xD800 + (cp - 0x10000) / 1024), cu (0xDC00 + (cp - 0x10000) % 1024)]

/-- The JavaScript string denoted by a source literal. -/
def lit (s : String) : JsString :=
  s.toList.flatMap (fun c => UTF16EncodeCodePoint c.toNat)

/-- A leading (high) surrogate code unit. -/
def isLeadingSurrogate (c : Nat) : Prop := 0xD800 ≤ c ∧ c ≤ 0xDBFF

/-- A trailing (low) surrogate code unit. -/
def isTrailingSurrogate (c : Nat) : Prop := 0xDC00 ≤ c ∧ c ≤ 0xDFFF

instance : DecidablePred isLeadingSurrogate := fun c => by
  unfold isLeadingSurrogate; infer_instance

instance : DecidablePred isTrailingSurrogate := fun c => by
  unfold isTrailingSurrogate; infer_instance

/-- String.prototype.isWellFormed: the string has no unpaired surrogate. -/
def isWellFormed : JsString → Bool
  | [] => true
  | c :: rest =>
    if isLeadingSurrogate c.val then
      match rest with
      | d :: rest2 => if isTrailingSurrogate d.val then isWellFormed rest2 else false
      | [] => false
    else if isTrailingSurrogate c.val then false
    else isWellFormed rest

/-! ## Values, exceptions and ToString -/

/-- The exceptions the modelled built-ins throw. -/
inductive JsError where
  | URIError
  deriving DecidableEq, Repr

instance : DecidableEq (Except JsError JsString) := fun a b =>
  match a, b with
  | .ok x, .ok y => if h : x = y then isTrue (by rw [h]) else isFalse (fun e => h (by cases e; rfl))
  | .error x, .error y =>
    if h : x = y then isTrue (by rw [h]) else isFalse (fun e => h (by cases e; rfl))
  | .ok _, .error _ => isFalse (fun e => by cases e)
  | .error _, .ok _ => isFalse (fun e => by cases e)

/-- The JavaScript values that occur as a setting or as the callback's `error`:
`undefined` (also the value of an absent property), `null`, a string, and an
Error object given by its `name` and `message`. -/
inductive JsValue where
  | undefined
  | null
  | string (s : JsString)
  | errorObject (name message : JsString)
  deriving DecidableEq, Repr

/-- Error.prototype.toString of ECMA-262 on an object whose name and message
are strings. -/
def errorToString (name message : JsString) : JsString :=
  if name = [] then message
  else if message = [] then name
  else name ++ lit ": " ++ message

/-- ToString of ECMA-262, as a template literal applies it to a substitution. -/
def ToString : JsValue → JsString
  | .undefined => lit "undefined"
  | .null => lit "null"
  | .string s => s
  | .errorObject name message => errorToString name message

/-! ## encodeURIComponent -/

/-- The set uriUnescaped of ECMA-262: ASCII letters, decimal digits and the
marks `- _ . ! ~ * ' ( )`. -/
def uriUnescaped (c : Nat) : Prop :=
  (0x41 ≤ c ∧ c ≤ 0x5A) ∨ (0x61 ≤ c ∧ c ≤ 0x7A) ∨ (0x30 ≤ c ∧ c ≤ 0x39) ∨
  c = 0x2D ∨ c = 0x5F ∨ c = 0x2E ∨ c = 0x21 ∨ c = 0x7E ∨ c = 0x2A ∨
  c = 0x27 ∨ c = 0x28 ∨ c = 0x29

instance : DecidablePred uriUnescaped := fun c => by
  unfold uriUnescaped; infer_instance

/-- The octets of the UTF-8 encoding of a code point. -/
def utf8Encode (cp : Nat) : List Nat :=
  if cp < 0x80 then [cp]
  else if cp < 0x800 then [0xC0 + cp / 64, 0x80 + cp % 64]
  else if cp < 0x10000 then [0xE0 + cp / 4096, 0x80 + cp / 64 % 64, 0x80 + cp % 64]
  else [0xF0 + cp / 262144, 0x80 + cp / 4096 % 64, 0x80 + cp / 64 % 64, 0x80 + cp % 64]

/-- An uppercase hexadecimal digit. -/
def hexDigit (d : Nat) : CodeUnit :=
  if d < 10 then cu (0x30 + d) else cu (0x37 + d)

/-- The escape of one octet: `%` and two uppercase hexadecimal digits. -/
def percentEscape (b : Nat) : JsString :=
  [cu 0x25, hexDigit (b / 16), hexDigit (b % 16)]

/-- The escapes of a sequence of octets. -/
def percentEscapes (bs : List Nat) : JsString :=
  bs.flatMap percentEscape

/-- The code point of a surrogate pair. -/
def codePointOfPair (lead trail : Nat) : Nat :=
  (lead - 0xD800) * 0x400 + (trail - 0xDC00) + 0x10000

/-- Encode of ECMA-262 with the unescaped set of encodeURIComponent: a code
unit of uriUnescaped is copied, any other code point is replaced by the escapes
of its UTF-8 octets, and an unpaired surrogate throws URIError. -/
def encodeURIComponent : JsString → Except JsError JsString
  | [] => .ok []
  | c :: rest =>
    if uriUnescaped c.val then
      (encodeURIComponent rest).map (fun r => c :: r)
    else if isLeadingSurrogate c.val then
      match rest with
      | d :: rest2 =>
        if isTrailingSurrogate d.val then
          (encodeURIComponent rest2).map
            (fun r => percentEscapes (utf8Encode (codePointOfPair c.val d.val)) ++ r)
        else .error .URIError
      | [] => .error .URIError
    else if isTrailingSurrogate c.val then .error .URIError
    else
      (encodeURIComponent rest).map (fun r => percentEscapes (utf8Encode c.val) ++ r)

/-! ## decodeURIComponent -/

/-- The value of a hexadecimal digit, in either case. -/
def hexValue (c : Nat) : Option Nat :=
  if 0x30 ≤ c ∧ c ≤ 0x39 then some (c - 0x30)
  else if 0x41 ≤ c ∧ c ≤ 0x46 then some (c - 0x37)
  else if 0x61 ≤ c ∧ c ≤ 0x66 then some (c - 0x57)
  else none

/-- ParseHexOctet of ECMA-262 at the head of the string: the octet written by
two hexadecimal digits, and what follows them. -/
def parseHexOctet : JsString → Option (Nat × JsString)
  | h :: l :: rest =>
    match hexValue h.val, hexValue l.val with
    | some a, some b => some (16 * a + b, rest)
    | _, _ => none
  | _ => none

/-- The number of leading 1 bits of an octet. -/
def leadingOnes (b : Nat) : Nat :=
  if b < 0x80 then 0
  else if b < 0xC0 then 1
  else if b < 0xE0 then 2
  else if b < 0xF0 then 3
  else if b < 0xF8 then 4
  else 5

/-- The continuation octets of an escaped multi-octet sequence: `j` further
escapes `%XX`, and what follows them. -/
def continuationOctets : Nat → JsString → Option (List Nat × JsString)
  | 0, s => some ([], s)
  | _ + 1, [] => none
  | j + 1, p :: s =>
    if p.val = 0x25 then
      match parseHexOctet s with
      | some (b, s2) =>
        match continuationOctets j s2 with
        | some (bs, r) => some (b :: bs, r)
        | none => none
      | none => none
    else none

/-- A continuation octet of UTF-8. -/
def isContinuation (b : Nat) : Prop := 0x80 ≤ b ∧ b ≤ 0xBF

instance : DecidablePred isContinuation := fun b => by
  unfold isContinuation; infer_instance

/-- The code point of a valid UTF-8 encoding of one Unicode code point; overlong
forms, surrogates and values above 0x10FFFF are invalid. -/
def utf8Decode : List Nat → Option Nat
  | [b0] => if b0 < 0x80 then some b0 else none
  | [b0, b1] =>
    if 0xC0 ≤ b0 ∧ b0 ≤ 0xDF ∧ isContinuation b1 then
      let v := (b0 - 0xC0) * 64 + (b1 - 0x80)
      if 0x80 ≤ v then some v else none
    else none
  | [b0, b1, b2] =>
    if 0xE0 ≤ b0 ∧ b0 ≤ 0xEF ∧ isContinuation b1 ∧ isContinuation b2 then
      let v := (b0 - 0xE0) * 4096 + (b1 - 0x80) * 64 + (b2 - 0x80)
      if 0x800 ≤ v ∧ ¬ (0xD800 ≤ v ∧ v ≤ 0xDFFF) then some v else none
    else none
  | [b0, b1, b2, b3] =>
    if 0xF0 ≤ b0 ∧ b0 ≤ 0xF7 ∧ isContinuation b1 ∧ isContinuation b2 ∧ isContinuation b3 then
      let v := (b0 - 0xF0) * 262144 + (b1 - 0x80) * 4096 + (b2 - 0x80) * 64 + (b3 - 0x80)
      if 0x10000 ≤ v ∧ v ≤ 0x10FFFF then some v else none
    else none
  | _ => none

/-- The loop of Decode of ECMA-262 with an empty preserved set. Each iteration
consumes at least one code unit; `fuel` bounds the number of iterations. -/
def decodeLoop : Nat → JsString → Except JsError JsString
  | 0, [] => .ok []
  | 0, _ :: _ => .error .URIError
  | _ + 1, [] => .ok []
  | fuel + 1, c :: rest =>
    if c.val ≠ 0x25 then
      (decodeLoop fuel rest).map (fun r => c :: r)
    else
      match parseHexOctet rest with
      | none => .error .URIError
      | some (b, rest1) =>
        let n := leadingOnes b
        if n = 0 then
          (decodeLoop fuel rest1).map (fun r => cu b :: r)
        else if n = 1 ∨ n > 4 then .error .URIError
        else
          match continuationOctets (n - 1) rest1 with
          | none => .error .URIError
          | some (octets, rest2) =>
            match utf8Decode (b :: octets) with
            | none => .error .URIError
            | some v => (decodeLoop fuel rest2).map (fun r => UTF16EncodeCodePoint v ++ r)

/-- The function decodeURIComponent: one iteration per code unit suffices. -/
def decodeURIComponent (s : JsString) : Except JsError JsString :=
  decodeLoop s.length s

/-! ## runPlugin -/

/-- The host's `global.api.configuration.settings`; an absent property reads as
`undefined`. -/
structure Settings where
  MoviesDirectory : JsValue
  TvShowsDirectory : JsValue
  M3uUrl : JsValue
  deriving DecidableEq

/-- What `exec` hands to its completion callback when the child is done. -/
structure ChildResult where
  error : JsValue
  stdout : JsString
  stderr : JsString

/-- How the call of runPlugin ends for its caller. -/
inductive Completion where
  | returned
  | threw (e : JsError)
  deriving DecidableEq, Repr

/-- The observable effects of one call of runPlugin: the commands handed to
`exec`, the lines written by `console.log`, and how the call ended. -/
structure Trace where
  execs : List JsString
  logs : List JsString
  completion : Completion
  deriving DecidableEq

/-- The completion callback `function (error, stdout, stderr)` of init.js,
as the lines it writes with `console.log`. -/
def callback (error : JsValue) (stdout stderr : JsString) : List JsString :=
  if error ≠ JsValue.null then
    [lit "exec error: " ++ ToString error]
  else
    [lit "Plugin executed successfully"]

/-- The function runPlugin of init.js. The template literal evaluates its
substitutions from left to right, so the only exception, the URIError of
encodeURIComponent, is thrown before `exec` is called. `__dirname` is the
directory of the script; `child` is the child process, giving for a command
what `exec` passes to the callback. -/
def runPlugin (__dirname : JsString) (settings : Settings)
    (child : JsString → ChildResult) : Trace :=
  let pythonScriptPath := __dirname ++ lit "/m3utostrm.py"
  match encodeURIComponent (ToString settings.M3uUrl) with
  | .error e => { execs := [], logs := [], completion := .threw e }
  | .ok encoded =>
    let command := lit "python " ++ pythonScriptPath ++ lit " --moviesDirectory=" ++
      ToString settings.MoviesDirectory ++ lit " --tvShowsDirectory=" ++
      ToString settings.TvShowsDirectory ++ lit " --m3uUrl=" ++ encoded
    let r := child command
    { execs := [command], logs := callback r.error r.stdout r.stderr,
      completion := .returned }

/-! ## The argument vector of the child

`exec(command)` runs `/bin/sh -c command` (POSIX). The model follows the
command from `exec` to the argument vector of the program the shell starts, on
the commands that are one simple command without quoting. -/

/-- String.prototype.toWellFormed: every unpaired surrogate is replaced by
U+FFFD. This is what the conversion of the command to UTF-8 does to it. -/
def toWellFormed : JsString → JsString
  | [] => []
  | c :: rest =>
    if isLeadingSurrogate c.val then
      match rest with
      | d :: rest2 =>
        if isTrailingSurrogate d.val then c :: d :: toWellFormed rest2
        else cu 0xFFFD :: toWellFormed (d :: rest2)
      | [] => [cu 0xFFFD]
    else if isTrailingSurrogate c.val then cu 0xFFFD :: toWellFormed rest
    else c :: toWellFormed rest

/-- The blanks that separate the words of a shell command: space and tab. -/
def isFieldSeparator (c : Nat) : Prop := c = 0x20 ∨ c = 0x09

instance : DecidablePred isFieldSeparator := fun c => by
  unfold isFieldSeparator; infer_instance

/-- The characters that, unquoted, end a simple command of `/bin/sh` or make
the shell alter the word they stand in: newline, the operators and quoting
characters `| & ; < > ( ) $` backquote, backslash, `" '`, the pattern
characters `* ? [ ]` and the braces (expanded where `/bin/sh` is bash). The
exclamation mark is not among them: a shell run with `-c` has no history
expansion. -/
def isShellMeta (c : Nat) : Prop :=
  c = 0x0A ∨ c = 0x7C ∨ c = 0x26 ∨ c = 0x3B ∨ c = 0x3C ∨ c = 0x3E ∨ c = 0x28 ∨
  c = 0x29 ∨ c = 0x24 ∨ c = 0x60 ∨ c = 0x5C ∨ c = 0x22 ∨ c = 0x27 ∨ c = 0x2A ∨
  c = 0x3F ∨ c = 0x5B ∨ c = 0x5D ∨ c = 0x7B ∨ c = 0x7D

instance : DecidablePred isShellMeta := fun c => by
  unfold isShellMeta; infer_instance

/-- A word that begins with `#` (the rest of the line is a comment) or with `~`
(a tilde prefix, replaced by a home directory). Inside a word both characters
stand for themselves. -/
def beginsSpecially : JsString → Bool
  | [] => false
  | c :: _ => decide (c.val = 0x23 ∨ c.val = 0x7E)

/-- The words of a string: the maximal runs of code units other than space and
tab; `cur` is the word being read, reversed. -/
def wordsAux : List CodeUnit → JsString → List JsString
  | cur, [] => if cur = [] then [] else [cur.reverse]
  | cur, c :: rest =>
    if isFieldSeparator c.val then
      (if cur = [] then wordsAux [] rest else cur.reverse :: wordsAux [] rest)
    else wordsAux (c :: cur) rest

/-- The argument vector that `exec(command)` and `/bin/sh -c` hand to the
program, the program's name first.
* A command with a NUL: `exec` throws a TypeError, no process is started (`none`).
* The command reaches the shell in UTF-8, unpaired surrogates replaced by U+FFFD.
* A command with a character of isShellMeta, or with a word that begins with
  `#` or `~`, is not a simple command of literal words; the model says nothing
  about it (`none`).
* Every other command is one simple command: its words are its arguments. -/
def splitCommandLine (command : JsString) : Option (List JsString) :=
  if command.any (fun c => decide (c.val = 0)) then none
  else if (toWellFormed command).any (fun c => decide (isShellMeta c.val)) then none
  else if (wordsAux [] (toWellFormed command)).any beginsSpecially then none
  else some (wordsAux [] (toWellFormed command))

/-! ## The characters the specification lists -/

/-- White space: space, tab and newline. -/
def isBlank (c : Nat) : Prop := c = 0x20 ∨ c = 0x09 ∨ c = 0x0A

instance : DecidablePred isBlank := fun c => by
  unfold isBlank; infer_instance

/-- The characters the specification lists as special for a shell:
`& ; | < > ( ) $` backquote, backslash, `" ' * ? !`. -/
def isShellSpecial (c : Nat) : Prop :=
  c = 0x26 ∨ c = 0x3B ∨ c = 0x7C ∨ c = 0x3C ∨ c = 0x3E ∨ c = 0x28 ∨ c = 0x29 ∨
  c = 0x24 ∨ c = 0x60 ∨ c = 0x5C ∨ c = 0x22 ∨ c = 0x27 ∨ c = 0x2A ∨ c = 0x3F ∨
  c = 0x21

instance : DecidablePred isShellSpecial := fun c => by
  unfold isShellSpecial; infer_instance

/-! ## Sets of characters the statements speak about -/

/-- An uppercase hexadecimal digit as a code unit number. -/
def isUpperHex (c : Nat) : Prop := (0x30 ≤ c ∧ c ≤ 0x39) ∨ (0x41 ≤ c ∧ c ≤ 0x46)

instance : DecidablePred isUpperHex := fun c => by
  unfold isUpperHex; infer_instance

/-- The reserved characters of the specification: space, `&`, `=`, `?`. -/
def isReserved (c : Nat) : Prop := c = 0x20 ∨ c = 0x26 ∨ c = 0x3D ∨ c = 0x3F

instance : DecidablePred isReserved := fun c => by
  unfold isReserved; infer_instance

/-- The special characters that encodeURIComponent leaves unescaped:
`! * ' ( )`. -/
def isUnescapedSpecial (c : Nat) : Prop :=
  c = 0x21 ∨ c = 0x2A ∨ c = 0x27 ∨ c = 0x28 ∨ c = 0x29

instance : DecidablePred isUnescapedSpecial := fun c => by
  unfold isUnescapedSpecial; infer_instance

/-- A string without white space and without a character of the
specification's list of special characters. -/
def isPlainWord (w : JsString) : Prop :=
  ∀ x ∈ w, ¬ isBlank x.val ∧ ¬ isShellSpecial x.val

instance : DecidablePred isPlainWord := fun w =>
  List.decidableBAll (fun x : CodeUnit => ¬ isBlank x.val ∧ ¬ isShellSpecial x.val) w

/-- The characters of isShellMeta that encodeURIComponent leaves unescaped:
`* ' ( )`. -/
def isUnescapedMeta (c : Nat) : Prop :=
  c = 0x2A ∨ c = 0x27 ∨ c = 0x28 ∨ c = 0x29

instance : DecidablePred isUnescapedMeta := fun c => by
  unfold isUnescapedMeta; infer_instance

/-- A text that `exec` and the shell pass on unaltered inside a word: no
unpaired surrogate, no NUL, no space or tab, no character of isShellMeta. -/
def isArgumentText (w : JsString) : Prop :=
  isWellFormed w = true ∧
    ∀ x ∈ w, x.val ≠ 0 ∧ ¬ isFieldSeparator x.val ∧ ¬ isShellMeta x.val

instance : DecidablePred isArgumentText := fun w =>
  @instDecidableAnd _ _ inferInstance
    (List.decidableBAll
      (fun x : CodeUnit => x.val ≠ 0 ∧ ¬ isFieldSeparator x.val ∧ ¬ isShellMeta x.val) w)

/-- A text free of unescaped shell characters: none of `* ' ( )`. -/
def hasNoUnescapedMeta (w : JsString) : Prop :=
  ∀ x ∈ w, ¬ isUnescapedMeta x.val

instance : DecidablePred hasNoUnescapedMeta := fun w =>
  List.decidableBAll (fun x : CodeUnit => ¬ isUnescapedMeta x.val) w

/-- The command line as the specification writes it: the interpreter, the
script in the directory `dir`, and the three named arguments, separated by
single spaces. -/
def commandLine (dir moviesDir tvShowsDir encodedUrl : JsString) : JsString :=
  lit "python " ++ dir ++ lit "/m3utostrm.py --moviesDirectory=" ++ moviesDir ++
    lit " --tvShowsDirectory=" ++ tvShowsDir ++ lit " --m3uUrl=" ++ encodedUrl

/-- The argument vector the specification expects the shell to hand over. -/
def argumentVector (dir moviesDir tvShowsDir encodedUrl : JsString) : List JsString :=
  [lit "python", dir ++ lit "/m3utostrm.py", lit "--moviesDirectory=" ++ moviesDir,
    lit "--tvShowsDirectory=" ++ tvShowsDir, lit "--m3uUrl=" ++ encodedUrl]

/-! ## Lemmas: encodeURIComponent -/

theorem uriUnescaped_lt {c : Nat} (h : uriUnescaped c) : c < 0x80 := by
  unfold uriUnescaped at h; omega

theorem not_surrogate_of_unescaped {c : Nat} (h : uriUnescaped c) :
    ¬ isLeadingSurrogate c ∧ ¬ isTrailingSurrogate c := by
  have := uriUnescaped_lt h
  unfold isLeadingSurrogate isTrailingSurrogate
  omega

theorem map_eq_ok {f : JsString → JsString} {x : Except JsError JsString} {y : JsString}
    (h : x.map f = .ok y) : ∃ r, x = .ok r ∧ y = f r := by
  cases x with
  | error e => simp [Except.map] at h
  | ok r => exact ⟨r, rfl, by simpa [Except.map] using h.symm⟩

theorem encode_cons_unescaped (c : CodeUnit) (rest : JsString) (h : uriUnescaped c.val) :
    encodeURIComponent (c :: rest) = (encodeURIComponent rest).map (fun r => c :: r) := by
  rw [encodeURIComponent.eq_def]; simp [h]

theorem encode_cons_plain (c : CodeUnit) (rest : JsString) (hu : ¬ uriUnescaped c.val)
    (hl : ¬ isLeadingSurrogate c.val) (ht : ¬ isTrailingSurrogate c.val) :
    encodeURIComponent (c :: rest) =
      (encodeURIComponent rest).map (fun r => percentEscapes (utf8Encode c.val) ++ r) := by
  rw [encodeURIComponent.eq_def]; simp [hu, hl, ht]

theorem encode_cons_pair (c d : CodeUnit) (rest : JsString) (hu : ¬ uriUnescaped c.val)
    (hl : isLeadingSurrogate c.val) (ht : isTrailingSurrogate d.val) :
    encodeURIComponent (c :: d :: rest) =
      (encodeURIComponent rest).map
        (fun r => percentEscapes (utf8Encode (codePointOfPair c.val d.val)) ++ r) := by
  rw [encodeURIComponent.eq_def]; simp [hu, hl, ht]

theorem encode_cons_trail (c : CodeUnit) (rest : JsString) (hu : ¬ uriUnescaped c.val)
    (hl : ¬ isLeadingSurrogate c.val) (ht : isTrailingSurrogate c.val) :
    encodeURIComponent (c :: rest) = .error .URIError := by
  rw [encodeURIComponent.eq_def]; simp [hu, hl, ht]

theorem encode_lead_alone (c : CodeUnit) (hu : ¬ uriUnescaped c.val)
    (hl : isLeadingSurrogate c.val) :
    encodeURIComponent [c] = .error .URIError := by
  rw [encodeURIComponent.eq_def]; simp [hu, hl]

theorem encode_lead_unpaired (c d : CodeUnit) (rest : JsString) (hu : ¬ uriUnescaped c.val)
    (hl : isLeadingSurrogate c.val) (ht : ¬ isTrailingSurrogate d.val) :
    encodeURIComponent (c :: d :: rest) = .error .URIError := by
  rw [encodeURIComponent.eq_def]; simp [hu, hl, ht]

theorem wellFormed_cons_plain (c : CodeUnit) (rest : JsString)
    (hl : ¬ isLeadingSurrogate c.val) (ht : ¬ isTrailingSurrogate c.val) :
    isWellFormed (c :: rest) = isWellFormed rest := by
  rw [isWellFormed.eq_def]; simp [hl, ht]

theorem wellFormed_cons_pair (c d : CodeUnit) (rest : JsString)
    (hl : isLeadingSurrogate c.val) (ht : isTrailingSurrogate d.val) :
    isWellFormed (c :: d :: rest) = isWellFormed rest := by
  rw [isWellFormed.eq_def]; simp [hl, ht]

theorem wellFormed_cons_trail (c : CodeUnit) (rest : JsString)
    (hl : ¬ isLeadingSurrogate c.val) (ht : isTrailingSurrogate c.val) :
    isWellFormed (c :: rest) = false := by
  rw [isWellFormed.eq_def]; simp [hl, ht]

theorem wellFormed_lead_alone (c : CodeUnit) (hl : isLeadingSurrogate c.val) :
    isWellFormed [c] = false := by
  rw [isWellFormed.eq_def]; simp [hl]

theorem wellFormed_lead_unpaired (c d : CodeUnit) (rest : JsString)
    (hl : isLeadingSurrogate c.val) (ht : ¬ isTrailingSurrogate d.val) :
    isWellFormed (c :: d :: rest) = false := by
  rw [isWellFormed.eq_def]; simp [hl, ht]

theorem encode_ok_of_wellFormed (url : JsString) (h : isWellFormed url = true) :
    ∃ enc, encodeURIComponent url = .ok enc := by
  induction url using encodeURIComponent.induct with
  | case1 => exact ⟨[], rfl⟩
  | case2 c rest hu ih =>
    obtain ⟨h1, h2⟩ := not_surrogate_of_unescaped hu
    rw [wellFormed_cons_plain c rest h1 h2] at h
    obtain ⟨e, he⟩ := ih h
    exact ⟨c :: e, by rw [encode_cons_unescaped c rest hu, he]; rfl⟩
  | case3 c hu hl d rest2 ht ih =>
    rw [wellFormed_cons_pair c d rest2 hl ht] at h
    obtain ⟨e, he⟩ := ih h
    exact ⟨_, by rw [encode_cons_pair c d rest2 hu hl ht, he]; rfl⟩
  | case4 c hu hl d rest2 ht => rw [wellFormed_lead_unpaired c d rest2 hl ht] at h; cases h
  | case5 c hu hl => rw [wellFormed_lead_alone c hl] at h; cases h
  | case6 c rest hu hl ht => rw [wellFormed_cons_trail c rest hl ht] at h; cases h
  | case7 c rest hu hl ht ih =>
    rw [wellFormed_cons_plain c rest hl ht] at h
    obtain ⟨e, he⟩ := ih h
    exact ⟨_, by rw [encode_cons_plain c rest hu hl ht, he]; rfl⟩

theorem wellFormed_of_encode_ok (url : JsString) :
    ∀ enc, encodeURIComponent url = .ok enc → isWellFormed url = true := by
  induction url using encodeURIComponent.induct with
  | case1 => intro _ _; rfl
  | case2 c rest hu ih =>
    intro enc h
    obtain ⟨h1, h2⟩ := not_surrogate_of_unescaped hu
    rw [encode_cons_unescaped c rest hu] at h
    obtain ⟨r, hr, _⟩ := map_eq_ok h
    rw [wellFormed_cons_plain c rest h1 h2]; exact ih r hr
  | case3 c hu hl d rest2 ht ih =>
    intro enc h
    rw [encode_cons_pair c d rest2 hu hl ht] at h
    obtain ⟨r, hr, _⟩ := map_eq_ok h
    rw [wellFormed_cons_pair c d rest2 hl ht]; exact ih r hr
  | case4 c hu hl d rest2 ht =>
    intro enc h; rw [encode_lead_unpaired c d rest2 hu hl ht] at h; cases h
  | case5 c hu hl => intro enc h; rw [encode_lead_alone c hu hl] at h; cases h
  | case6 c rest hu hl ht => intro enc h; rw [encode_cons_trail c rest hu hl ht] at h; cases h
  | case7 c rest hu hl ht ih =>
    intro enc h
    rw [encode_cons_plain c rest hu hl ht] at h
    obtain ⟨r, hr, _⟩ := map_eq_ok h
    rw [wellFormed_cons_plain c rest hl ht]; exact ih r hr

theorem encode_error_of_not_wellFormed (url : JsString) (h : isWellFormed url = false) :
    encodeURIComponent url = .error .URIError := by
  cases hx : encodeURIComponent url with
  | error e => cases e; rfl
  | ok enc => rw [wellFormed_of_encode_ok url enc hx] at h; cases h

/-! ## Lemmas: decodeURIComponent inverts the escapes -/

theorem cu_val (n : Nat) : (cu n).val = n % 65536 := rfl

theorem cu_val_self (c : CodeUnit) : cu c.val = c := by
  apply Fin.ext
  rw [cu_val]
  exact Nat.mod_eq_of_lt c.isLt

theorem hexValue_hexDigit (d : Nat) (h : d < 16) : hexValue (hexDigit d).val = some d := by
  unfold hexDigit
  by_cases h10 : d < 10
  · rw [if_pos h10, cu_val]
    have : (0x30 + d) % 65536 = 0x30 + d := by omega
    rw [this]
    unfold hexValue
    rw [if_pos (by omega)]
    congr 1
    omega
  · rw [if_neg h10, cu_val]
    have : (0x37 + d) % 65536 = 0x37 + d := by omega
    rw [this]
    unfold hexValue
    rw [if_neg (by omega), if_pos (by omega)]
    congr 1
    omega

theorem parseHexOctet_escape (b : Nat) (rest : JsString) (h : b < 256) :
    parseHexOctet (hexDigit (b / 16) :: hexDigit (b % 16) :: rest) = some (b, rest) := by
  simp only [parseHexOctet, hexValue_hexDigit (b / 16) (by omega),
    hexValue_hexDigit (b % 16) (by omega), Option.some.injEq, Prod.mk.injEq, and_true]
  omega

theorem percentEscapes_cons (b : Nat) (bs : List Nat) :
    percentEscapes (b :: bs) = percentEscape b ++ percentEscapes bs := by
  simp [percentEscapes]

theorem percentEscape_append (b : Nat) (tail : JsString) :
    percentEscape b ++ tail = cu 0x25 :: hexDigit (b / 16) :: hexDigit (b % 16) :: tail := rfl

theorem continuationOctets_escapes (bs : List Nat) (tail : JsString)
    (h : ∀ x ∈ bs, x < 256) :
    continuationOctets bs.length (percentEscapes bs ++ tail) = some (bs, tail) := by
  induction bs with
  | nil => rfl
  | cons b bs ih =>
    have hb : b < 256 := h b (List.mem_cons_self _ _)
    have hbs : ∀ x ∈ bs, x < 256 := fun x hx => h x (List.mem_cons_of_mem _ hx)
    rw [percentEscapes_cons, List.append_assoc, percentEscape_append, List.length_cons,
      continuationOctets]
    rw [if_pos (by rfl), parseHexOctet_escape b _ hb]
    simp only
    rw [ih hbs]

theorem decodeLoop_percent (f : Nat) (rest : JsString) :
    decodeLoop (f + 1) (cu 0x25 :: rest) =
      match parseHexOctet rest with
      | none => .error .URIError
      | some (b, rest1) =>
        if leadingOnes b = 0 then (decodeLoop f rest1).map (fun r => cu b :: r)
        else if leadingOnes b = 1 ∨ leadingOnes b > 4 then .error .URIError
        else
          match continuationOctets (leadingOnes b - 1) rest1 with
          | none => .error .URIError
          | some (octets, rest2) =>
            match utf8Decode (b :: octets) with
            | none => .error .URIError
            | some v => (decodeLoop f rest2).map (fun r => UTF16EncodeCodePoint v ++ r) := by
  rw [decodeLoop]
  have : (cu 0x25).val = 0x25 := rfl
  simp only [this, ne_eq, not_true_eq_false, if_false]

theorem decodeLoop_plain (f : Nat) (c : CodeUnit) (rest : JsString) (h : c.val ≠ 0x25) :
    decodeLoop (f + 1) (c :: rest) = (decodeLoop f rest).map (fun r => c :: r) := by
  rw [decodeLoop]
  simp only [h, ne_eq, not_false_eq_true, if_true]

theorem decodeLoop_escape_ascii (f b : Nat) (tail : JsString) (hb : b < 0x80) :
    decodeLoop (f + 1) (percentEscape b ++ tail) =
      (decodeLoop f tail).map (fun r => cu b :: r) := by
  rw [percentEscape_append, decodeLoop_percent, parseHexOctet_escape b _ (by omega)]
  have : leadingOnes b = 0 := by unfold leadingOnes; rw [if_pos hb]
  simp only [this, if_true]

theorem decodeLoop_escape_multi (f b v : Nat) (bs : List Nat) (tail : JsString)
    (hb : b < 256) (hbs : ∀ x ∈ bs, x < 256)
    (hn : leadingOnes b = bs.length + 1) (h1 : 1 ≤ bs.length) (h4 : bs.length ≤ 3)
    (hv : utf8Decode (b :: bs) = some v) :
    decodeLoop (f + 1) (percentEscapes (b :: bs) ++ tail) =
      (decodeLoop f tail).map (fun r => UTF16EncodeCodePoint v ++ r) := by
  rw [percentEscapes_cons, List.append_assoc, percentEscape_append, decodeLoop_percent,
    parseHexOctet_escape b _ hb]
  simp only
  rw [if_neg (by omega), if_neg (by omega), hn, Nat.add_sub_cancel,
    continuationOctets_escapes bs tail hbs]
  simp only [hv]

theorem utf8Decode_two (cp : Nat) (h1 : 0x80 ≤ cp) (h2 : cp < 0x800) :
    utf8Decode [0xC0 + cp / 64, 0x80 + cp % 64] = some cp := by
  simp only [utf8Decode, isContinuation]
  have hv : (0xC0 + cp / 64 - 0xC0) * 64 + (0x80 + cp % 64 - 0x80) = cp := by omega
  rw [if_pos (by omega), hv, if_pos h1]

theorem utf8Decode_three (cp : Nat) (h1 : 0x800 ≤ cp) (h2 : cp < 0x10000)
    (hs : ¬ (0xD800 ≤ cp ∧ cp ≤ 0xDFFF)) :
    utf8Decode [0xE0 + cp / 4096, 0x80 + cp / 64 % 64, 0x80 + cp % 64] = some cp := by
  simp only [utf8Decode, isContinuation]
  rw [if_pos (by omega)]
  have hv : (0xE0 + cp / 4096 - 0xE0) * 4096 + (0x80 + cp / 64 % 64 - 0x80) * 64 +
      (0x80 + cp % 64 - 0x80) = cp := by omega
  rw [hv, if_pos ⟨h1, hs⟩]

theorem utf8Decode_four (cp : Nat) (h1 : 0x10000 ≤ cp) (h2 : cp < 0x110000) :
    utf8Decode [0xF0 + cp / 262144, 0x80 + cp / 4096 % 64, 0x80 + cp / 64 % 64,
      0x80 + cp % 64] = some cp := by
  simp only [utf8Decode, isContinuation]
  rw [if_pos (by omega)]
  have hv : (0xF0 + cp / 262144 - 0xF0) * 262144 + (0x80 + cp / 4096 % 64 - 0x80) * 4096 +
      (0x80 + cp / 64 % 64 - 0x80) * 64 + (0x80 + cp % 64 - 0x80) = cp := by omega
  rw [hv, if_pos ⟨h1, by omega⟩]

theorem decodeLoop_codePoint (f cp : Nat) (tail : JsString) (hs : cp < 0x110000)
    (hns : ¬ (0xD800 ≤ cp ∧ cp ≤ 0xDFFF)) :
    decodeLoop (f + 1) (percentEscapes (utf8Encode cp) ++ tail) =
      (decodeLoop f tail).map (fun r => UTF16EncodeCodePoint cp ++ r) := by
  unfold utf8Encode
  by_cases c1 : cp < 0x80
  · rw [if_pos c1]
    have he : percentEscapes [cp] ++ tail = percentEscape cp ++ tail := by
      simp [percentEscapes]
    have hu : UTF16EncodeCodePoint cp = [cu cp] := by
      unfold UTF16EncodeCodePoint; rw [if_pos (by omega)]
    rw [he, decodeLoop_escape_ascii f cp tail c1, hu]
    rfl
  · rw [if_neg c1]
    by_cases c2 : cp < 0x800
    · rw [if_pos c2]
      refine decodeLoop_escape_multi f _ cp _ tail (by omega) ?_ ?_ (by simp) (by simp)
        (utf8Decode_two cp (by omega) c2)
      · intro x hx
        simp only [List.mem_singleton] at hx
        omega
      · unfold leadingOnes
        rw [if_neg (by omega), if_neg (by omega), if_pos (by omega)]
        rfl
    · rw [if_neg c2]
      by_cases c3 : cp < 0x10000
      · rw [if_pos c3]
        refine decodeLoop_escape_multi f _ cp _ tail (by omega) ?_ ?_ (by simp) (by simp)
          (utf8Decode_three cp (by omega) c3 hns)
        · intro x hx
          simp only [List.mem_cons, List.mem_singleton, List.not_mem_nil, or_false] at hx
          omega
        · unfold leadingOnes
          rw [if_neg (by omega), if_neg (by omega), if_neg (by omega), if_pos (by omega)]
          rfl
      · rw [if_neg c3]
        refine decodeLoop_escape_multi f _ cp _ tail (by omega) ?_ ?_ (by simp) (by simp)
          (utf8Decode_four cp (by omega) hs)
        · intro x hx
          simp only [List.mem_cons, List.mem_singleton, List.not_mem_nil, or_false] at hx
          omega
        · unfold leadingOnes
          rw [if_neg (by omega), if_neg (by omega), if_neg (by omega), if_neg (by omega),
            if_pos (by omega)]
          rfl

theorem utf16_of_unit (c : CodeUnit) : UTF16EncodeCodePoint c.val = [c] := by
  unfold UTF16EncodeCodePoint
  have := c.isLt
  rw [if_pos (by omega), cu_val_self]

theorem utf16_of_pair (c d : CodeUnit) (hl : isLeadingSurrogate c.val)
    (ht : isTrailingSurrogate d.val) :
    UTF16EncodeCodePoint (codePointOfPair c.val d.val) = [c, d] := by
  unfold isLeadingSurrogate at hl
  unfold isTrailingSurrogate at ht
  unfold UTF16EncodeCodePoint codePointOfPair
  rw [if_neg (by omega)]
  have e1 : cu (0xD800 + ((c.val - 0xD800) * 0x400 + (d.val - 0xDC00) + 0x10000 - 0x10000) / 1024)
      = c := by
    apply Fin.ext; rw [cu_val]; omega
  have e2 : cu (0xDC00 + ((c.val - 0xD800) * 0x400 + (d.val - 0xDC00) + 0x10000 - 0x10000) % 1024)
      = d := by
    apply Fin.ext; rw [cu_val]; omega
  rw [e1, e2]

theorem percentEscapes_length (bs : List Nat) : (percentEscapes bs).length = 3 * bs.length := by
  induction bs with
  | nil => rfl
  | cons b bs ih =>
    rw [percentEscapes_cons, List.length_append, ih, List.length_cons]
    simp only [percentEscape, List.length_cons, List.length_nil]
    omega

theorem utf8Encode_length_pos (cp : Nat) : 1 ≤ (utf8Encode cp).length := by
  unfold utf8Encode
  split
  · simp
  · split
    · simp
    · split <;> simp

/-- Decoding what encodeURIComponent produced gives back the string, for every
amount of fuel that covers the length of the encoded string. -/
theorem decodeLoop_encode (url : JsString) :
    ∀ enc, encodeURIComponent url = .ok enc →
      ∀ f, enc.length ≤ f → decodeLoop f enc = .ok url := by
  induction url using encodeURIComponent.induct with
  | case1 =>
    intro enc h f _
    cases h
    cases f <;> rfl
  | case2 c rest hu ih =>
    intro enc h f hf
    rw [encode_cons_unescaped c rest hu] at h
    obtain ⟨r, hr, rfl⟩ := map_eq_ok h
    have hc : c.val ≠ 0x25 := by
      intro hc; unfold uriUnescaped at hu; omega
    obtain ⟨g, rfl⟩ : ∃ g, f = g + 1 := ⟨f - 1, by simp only [List.length_cons] at hf; omega⟩
    rw [decodeLoop_plain g c r hc, ih r hr g (by simp only [List.length_cons] at hf; omega)]
    rfl
  | case3 c hu hl d rest2 ht ih =>
    intro enc h f hf
    rw [encode_cons_pair c d rest2 hu hl ht] at h
    obtain ⟨r, hr, he⟩ := map_eq_ok h
    rw [he] at hf ⊢
    have hlen : 3 ≤ (percentEscapes (utf8Encode (codePointOfPair c.val d.val))).length := by
      rw [percentEscapes_length]
      have := utf8Encode_length_pos (codePointOfPair c.val d.val)
      omega
    rw [List.length_append] at hf
    obtain ⟨g, rfl⟩ : ∃ g, f = g + 1 := ⟨f - 1, by omega⟩
    have hcp : codePointOfPair c.val d.val < 0x110000 ∧
        ¬ (0xD800 ≤ codePointOfPair c.val d.val ∧ codePointOfPair c.val d.val ≤ 0xDFFF) := by
      unfold isLeadingSurrogate at hl
      unfold isTrailingSurrogate at ht
      unfold codePointOfPair
      omega
    rw [decodeLoop_codePoint g _ r hcp.1 hcp.2, ih r hr g (by omega), utf16_of_pair c d hl ht]
    rfl
  | case4 c hu hl d rest2 ht =>
    intro enc h; rw [encode_lead_unpaired c d rest2 hu hl ht] at h; cases h
  | case5 c hu hl => intro enc h; rw [encode_lead_alone c hu hl] at h; cases h
  | case6 c rest hu hl ht => intro enc h; rw [encode_cons_trail c rest hu hl ht] at h; cases h
  | case7 c rest hu hl ht ih =>
    intro enc h f hf
    rw [encode_cons_plain c rest hu hl ht] at h
    obtain ⟨r, hr, he⟩ := map_eq_ok h
    rw [he] at hf ⊢
    have hlen : 3 ≤ (percentEscapes (utf8Encode c.val)).length := by
      rw [percentEscapes_length]
      have := utf8Encode_length_pos c.val
      omega
    rw [List.length_append] at hf
    obtain ⟨g, rfl⟩ : ∃ g, f = g + 1 := ⟨f - 1, by omega⟩
    have hcp : c.val < 0x110000 ∧ ¬ (0xD800 ≤ c.val ∧ c.val ≤ 0xDFFF) := by
      have := c.isLt
      unfold isLeadingSurrogate at hl
      unfold isTrailingSurrogate at ht
      omega
    rw [decodeLoop_codePoint g _ r hcp.1 hcp.2, ih r hr g (by omega), utf16_of_unit c]
    rfl

/-- The round trip on the level of the two built-ins. -/
theorem decode_encode (url enc : JsString) (h : encodeURIComponent url = .ok enc) :
    decodeURIComponent enc = .ok url :=
  decodeLoop_encode url enc h enc.length (Nat.le_refl _)

/-! ## Lemmas: the fuel of the decoding loop -/

theorem parseHexOctet_length {s rest : JsString} {b : Nat}
    (h : parseHexOctet s = some (b, rest)) : rest.length ≤ s.length := by
  match s, h with
  | [], h => simp [parseHexOctet] at h
  | [_], h => simp [parseHexOctet] at h
  | x :: y :: r, h =>
    simp only [parseHexOctet] at h
    split at h
    · simp only [Option.some.injEq, Prod.mk.injEq] at h
      rw [← h.2]
      simp only [List.length_cons]
      omega
    · cases h

theorem continuationOctets_length (j : Nat) :
    ∀ (s rest : JsString) (bs : List Nat),
      continuationOctets j s = some (bs, rest) → rest.length ≤ s.length := by
  induction j with
  | zero =>
    intro s rest bs h
    simp only [continuationOctets, Option.some.injEq, Prod.mk.injEq] at h
    rw [h.2]
  | succ j ih =>
    intro s rest bs h
    cases s with
    | nil => simp [continuationOctets] at h
    | cons p s =>
      simp only [continuationOctets] at h
      split at h
      · cases hp : parseHexOctet s with
        | none => simp [hp] at h
        | some q =>
          obtain ⟨b, s2⟩ := q
          simp only [hp] at h
          cases hc : continuationOctets j s2 with
          | none => simp [hc] at h
          | some q2 =>
            obtain ⟨bs2, r⟩ := q2
            simp only [hc, Option.some.injEq, Prod.mk.injEq] at h
            have h1 := parseHexOctet_length hp
            have h2 := ih s2 r bs2 hc
            rw [← h.2]
            simp only [List.length_cons]
            omega
      · cases h

/-- One more unit of fuel changes nothing once the fuel covers the length. -/
theorem decodeLoop_succ (f : Nat) :
    ∀ s : JsString, s.length ≤ f → decodeLoop (f + 1) s = decodeLoop f s := by
  induction f with
  | zero =>
    intro s h
    cases s with
    | nil => rfl
    | cons c r => simp at h
  | succ f ih =>
    intro s h
    cases s with
    | nil => rfl
    | cons c rest =>
      have hr : rest.length ≤ f := by simp only [List.length_cons] at h; omega
      by_cases hc : c.val ≠ 0x25
      · rw [decodeLoop_plain (f + 1) c rest hc, decodeLoop_plain f c rest hc, ih rest hr]
      · have hc2 : c = cu 0x25 := by
          apply Fin.ext
          rw [cu_val]
          omega
        rw [hc2, decodeLoop_percent (f + 1) rest, decodeLoop_percent f rest]
        cases hp : parseHexOctet rest with
        | none => rfl
        | some q =>
          obtain ⟨b, rest1⟩ := q
          have h1 := parseHexOctet_length hp
          simp only
          rw [ih rest1 (by omega)]
          cases hk : continuationOctets (leadingOnes b - 1) rest1 with
          | none => rfl
          | some q2 =>
            obtain ⟨octets, rest2⟩ := q2
            have h2 := continuationOctets_length _ _ _ _ hk
            simp only
            rw [ih rest2 (by omega)]

/-- The decoding loop never runs out of fuel when started by decodeURIComponent:
any amount of fuel of at least the length of the string gives the same result. -/
theorem decodeLoop_fuel (s : JsString) (f : Nat) (h : s.length ≤ f) :
    decodeLoop f s = decodeURIComponent s := by
  unfold decodeURIComponent
  induction f with
  | zero =>
    have : s.length = 0 := by omega
    rw [this]
  | succ f ih =>
    by_cases hf : s.length ≤ f
    · rw [decodeLoop_succ f s hf]
      exact ih hf
    · have : s.length = f + 1 := by omega
      rw [this]

/-! ## Lemmas: the shape of the encoded string -/

theorem hexDigit_upper (d : Nat) (h : d < 16) : isUpperHex (hexDigit d).val := by
  unfold hexDigit isUpperHex
  by_cases h10 : d < 10
  · rw [if_pos h10, cu_val]; omega
  · rw [if_neg h10, cu_val]; omega

theorem percentEscape_units (b : Nat) (h : b < 256) :
    ∀ x ∈ percentEscape b, x.val = 0x25 ∨ isUpperHex x.val := by
  intro x hx
  simp only [percentEscape, List.mem_cons, List.mem_singleton, List.not_mem_nil, or_false] at hx
  rcases hx with rfl | rfl | rfl
  · left; rfl
  · right; exact hexDigit_upper _ (by omega)
  · right; exact hexDigit_upper _ (by omega)

theorem percentEscapes_units (bs : List Nat) (h : ∀ b ∈ bs, b < 256) :
    ∀ x ∈ percentEscapes bs, x.val = 0x25 ∨ isUpperHex x.val := by
  intro x hx
  simp only [percentEscapes, List.mem_flatMap] at hx
  obtain ⟨b, hb, hxb⟩ := hx
  exact percentEscape_units b (h b hb) x hxb

theorem utf8Encode_octets (cp : Nat) (h : cp < 0x110000) : ∀ b ∈ utf8Encode cp, b < 256 := by
  intro b hb
  unfold utf8Encode at hb
  split at hb
  · simp only [List.mem_singleton] at hb; omega
  · split at hb
    · simp only [List.mem_cons, List.mem_singleton, List.not_mem_nil, or_false] at hb; omega
    · split at hb
      · simp only [List.mem_cons, List.mem_singleton, List.not_mem_nil, or_false] at hb; omega
      · simp only [List.mem_cons, List.mem_singleton, List.not_mem_nil, or_false] at hb; omega

theorem codePointOfPair_lt (c d : CodeUnit) (hl : isLeadingSurrogate c.val)
    (ht : isTrailingSurrogate d.val) : codePointOfPair c.val d.val < 0x110000 := by
  unfold isLeadingSurrogate at hl
  unfold isTrailingSurrogate at ht
  unfold codePointOfPair
  omega

/-- Every code unit of the encoded string is either an unescaped code unit
copied from the argument, or `%`, or an uppercase hexadecimal digit. -/
theorem encode_units (url : JsString) :
    ∀ enc, encodeURIComponent url = .ok enc →
      ∀ x ∈ enc, (uriUnescaped x.val ∧ x ∈ url) ∨ x.val = 0x25 ∨ isUpperHex x.val := by
  induction url using encodeURIComponent.induct with
  | case1 =>
    intro enc h x hx
    cases h
    cases hx
  | case2 c rest hu ih =>
    intro enc h x hx
    rw [encode_cons_unescaped c rest hu] at h
    obtain ⟨r, hr, he⟩ := map_eq_ok h
    rw [he, List.mem_cons] at hx
    rcases hx with rfl | hx
    · exact Or.inl ⟨hu, List.mem_cons_self _ _⟩
    · rcases ih r hr x hx with ⟨h1, h2⟩ | h3
      · exact Or.inl ⟨h1, List.mem_cons_of_mem _ h2⟩
      · exact Or.inr h3
  | case3 c hu hl d rest2 ht ih =>
    intro enc h x hx
    rw [encode_cons_pair c d rest2 hu hl ht] at h
    obtain ⟨r, hr, he⟩ := map_eq_ok h
    rw [he, List.mem_append] at hx
    rcases hx with hx | hx
    · exact Or.inr (percentEscapes_units _
        (utf8Encode_octets _ (codePointOfPair_lt c d hl ht)) x hx)
    · rcases ih r hr x hx with ⟨h1, h2⟩ | h3
      · exact Or.inl ⟨h1, List.mem_cons_of_mem _ (List.mem_cons_of_mem _ h2)⟩
      · exact Or.inr h3
  | case4 c hu hl d rest2 ht =>
    intro enc h; rw [encode_lead_unpaired c d rest2 hu hl ht] at h; cases h
  | case5 c hu hl => intro enc h; rw [encode_lead_alone c hu hl] at h; cases h
  | case6 c rest hu hl ht => intro enc h; rw [encode_cons_trail c rest hu hl ht] at h; cases h
  | case7 c rest hu hl ht ih =>
    intro enc h x hx
    rw [encode_cons_plain c rest hu hl ht] at h
    obtain ⟨r, hr, he⟩ := map_eq_ok h
    rw [he, List.mem_append] at hx
    rcases hx with hx | hx
    · have := c.isLt
      exact Or.inr (percentEscapes_units _ (utf8Encode_octets _ (by omega)) x hx)
    · rcases ih r hr x hx with ⟨h1, h2⟩ | h3
      · exact Or.inl ⟨h1, List.mem_cons_of_mem _ h2⟩
      · exact Or.inr h3

/-- Splitting the argument before a code unit that is not a trailing surrogate
splits the encoded string. -/
theorem encode_split (a : JsString) (c : CodeUnit) (b : JsString)
    (hc : ¬ isTrailingSurrogate c.val) :
    ∀ enc, encodeURIComponent (a ++ c :: b) = .ok enc →
      ∃ ea er, encodeURIComponent a = .ok ea ∧ encodeURIComponent (c :: b) = .ok er ∧
        enc = ea ++ er := by
  induction a using encodeURIComponent.induct with
  | case1 =>
    intro enc h
    exact ⟨[], enc, rfl, h, rfl⟩
  | case2 x rest hu ih =>
    intro enc h
    rw [List.cons_append, encode_cons_unescaped x _ hu] at h
    obtain ⟨r, hr, he⟩ := map_eq_ok h
    obtain ⟨ea, er, h1, h2, h3⟩ := ih r hr
    refine ⟨x :: ea, er, ?_, h2, ?_⟩
    · rw [encode_cons_unescaped x rest hu, h1]; rfl
    · rw [he, h3]; rfl
  | case3 x hu hl d rest2 ht ih =>
    intro enc h
    rw [List.cons_append, List.cons_append, encode_cons_pair x d _ hu hl ht] at h
    obtain ⟨r, hr, he⟩ := map_eq_ok h
    obtain ⟨ea, er, h1, h2, h3⟩ := ih r hr
    refine ⟨percentEscapes (utf8Encode (codePointOfPair x.val d.val)) ++ ea, er, ?_, h2, ?_⟩
    · rw [encode_cons_pair x d rest2 hu hl ht, h1]; rfl
    · rw [he, h3, List.append_assoc]
  | case4 x hu hl d rest2 ht =>
    intro enc h
    rw [List.cons_append, List.cons_append, encode_lead_unpaired x d _ hu hl ht] at h
    cases h
  | case5 x hu hl =>
    intro enc h
    rw [List.cons_append, List.nil_append, encode_lead_unpaired x c b hu hl hc] at h
    cases h
  | case6 x rest hu hl ht =>
    intro enc h
    rw [List.cons_append, encode_cons_trail x _ hu hl ht] at h
    cases h
  | case7 x rest hu hl ht ih =>
    intro enc h
    rw [List.cons_append, encode_cons_plain x _ hu hl ht] at h
    obtain ⟨r, hr, he⟩ := map_eq_ok h
    obtain ⟨ea, er, h1, h2, h3⟩ := ih r hr
    refine ⟨percentEscapes (utf8Encode x.val) ++ ea, er, ?_, h2, ?_⟩
    · rw [encode_cons_plain x rest hu hl ht, h1]; rfl
    · rw [he, h3, List.append_assoc]

/-- A reserved character at the head of the argument is replaced by its escape. -/
theorem encode_cons_reserved (c : CodeUnit) (b : JsString) (hc : isReserved c.val) :
    encodeURIComponent (c :: b) =
      (encodeURIComponent b).map (fun r => percentEscape c.val ++ r) := by
  unfold isReserved at hc
  have hu : ¬ uriUnescaped c.val := by unfold uriUnescaped; omega
  have hl : ¬ isLeadingSurrogate c.val := by unfold isLeadingSurrogate; omega
  have ht : ¬ isTrailingSurrogate c.val := by unfold isTrailingSurrogate; omega
  rw [encode_cons_plain c b hu hl ht]
  have h8 : utf8Encode c.val = [c.val] := by
    unfold utf8Encode; rw [if_pos (by omega)]
  have hp : percentEscapes [c.val] = percentEscape c.val := by
    simp [percentEscapes]
  rw [h8, hp]

/-! ## Lemmas: runPlugin -/

theorem runPlugin_of_ok (dir : JsString) (s : Settings) (child : JsString → ChildResult)
    (enc : JsString) (h : encodeURIComponent (ToString s.M3uUrl) = .ok enc) :
    runPlugin dir s child =
      { execs := [lit "python " ++ (dir ++ lit "/m3utostrm.py") ++ lit " --moviesDirectory=" ++
          ToString s.MoviesDirectory ++ lit " --tvShowsDirectory=" ++
          ToString s.TvShowsDirectory ++ lit " --m3uUrl=" ++ enc],
        logs := callback
          (child (lit "python " ++ (dir ++ lit "/m3utostrm.py") ++ lit " --moviesDirectory=" ++
            ToString s.MoviesDirectory ++ lit " --tvShowsDirectory=" ++
            ToString s.TvShowsDirectory ++ lit " --m3uUrl=" ++ enc)).error
          (child (lit "python " ++ (dir ++ lit "/m3utostrm.py") ++ lit " --moviesDirectory=" ++
            ToString s.MoviesDirectory ++ lit " --tvShowsDirectory=" ++
            ToString s.TvShowsDirectory ++ lit " --m3uUrl=" ++ enc)).stdout
          (child (lit "python " ++ (dir ++ lit "/m3utostrm.py") ++ lit " --moviesDirectory=" ++
            ToString s.MoviesDirectory ++ lit " --tvShowsDirectory=" ++
            ToString s.TvShowsDirectory ++ lit " --m3uUrl=" ++ enc)).stderr,
        completion := .returned } := by
  unfold runPlugin
  simp only [h]

theorem runPlugin_of_error (dir : JsString) (s : Settings) (child : JsString → ChildResult)
    (e : JsError) (h : encodeURIComponent (ToString s.M3uUrl) = .error e) :
    runPlugin dir s child = { execs := [], logs := [], completion := .threw e } := by
  unfold runPlugin
  simp only [h]

theorem lit_script_movies :
    lit "/m3utostrm.py" ++ lit " --moviesDirectory=" = lit "/m3utostrm.py --moviesDirectory=" := by
  decide

/-- The command of runPlugin in the association the specification writes it in. -/
theorem command_assoc (dir m t enc : JsString) :
    lit "python " ++ (dir ++ lit "/m3utostrm.py") ++ lit " --moviesDirectory=" ++ m ++
        lit " --tvShowsDirectory=" ++ t ++ lit " --m3uUrl=" ++ enc =
      lit "python " ++ dir ++ lit "/m3utostrm.py --moviesDirectory=" ++ m ++
        lit " --tvShowsDirectory=" ++ t ++ lit " --m3uUrl=" ++ enc := by
  rw [← lit_script_movies]
  simp only [List.append_assoc]

/-- If runPlugin issued a command, encodeURIComponent returned, and the run is
the one of runPlugin_of_ok. -/
theorem encode_ok_of_execs (dir : JsString) (s : Settings) (child : JsString → ChildResult)
    (cmd : JsString) (h : (runPlugin dir s child).execs = [cmd]) :
    ∃ enc, encodeURIComponent (ToString s.M3uUrl) = .ok enc := by
  cases he : encodeURIComponent (ToString s.M3uUrl) with
  | ok enc => exact ⟨enc, rfl⟩
  | error e =>
    rw [runPlugin_of_error dir s child e he] at h
    cases h

/-! ## Lemmas: the words of a command -/

theorem wordsAux_word (w : JsString) (h : ∀ x ∈ w, ¬ isFieldSeparator x.val) :
    ∀ (cur : List CodeUnit) (rest : JsString),
      wordsAux cur (w ++ rest) = wordsAux (w.reverse ++ cur) rest := by
  induction w with
  | nil => intro cur rest; rfl
  | cons x w ih =>
    intro cur rest
    have hx : ¬ isFieldSeparator x.val := h x (List.mem_cons_self _ _)
    have hw : ∀ y ∈ w, ¬ isFieldSeparator y.val := fun y hy => h y (List.mem_cons_of_mem _ hy)
    rw [List.cons_append, wordsAux, if_neg hx, ih hw, List.reverse_cons, List.append_assoc]
    rfl

theorem wordsAux_blank (cur : List CodeUnit) (p : CodeUnit) (rest : JsString)
    (hp : isFieldSeparator p.val) (hc : cur ≠ []) :
    wordsAux cur (p :: rest) = cur.reverse :: wordsAux [] rest := by
  rw [wordsAux, if_pos hp, if_neg hc]

/-- A non-empty word without space or tab, followed by a blank, is the first word. -/
theorem words_cons (w : JsString) (p : CodeUnit) (rest : JsString)
    (h : ∀ x ∈ w, ¬ isFieldSeparator x.val) (hne : w ≠ []) (hp : isFieldSeparator p.val) :
    wordsAux [] (w ++ p :: rest) = w :: wordsAux [] rest := by
  rw [wordsAux_word w h, List.append_nil,
    wordsAux_blank _ p rest hp (by simpa using hne), List.reverse_reverse]

/-- A non-empty word without space or tab at the end is the last word. -/
theorem words_last (w : JsString) (h : ∀ x ∈ w, ¬ isFieldSeparator x.val) (hne : w ≠ []) :
    wordsAux [] w = [w] := by
  have := wordsAux_word w h [] []
  rw [List.append_nil, List.append_nil] at this
  rw [this, wordsAux, if_neg (by simpa using hne), List.reverse_reverse]

/-- The commands runPlugin hands to `exec` when encodeURIComponent returns. -/
theorem execs_of_ok (dir : JsString) (s : Settings) (child : JsString → ChildResult)
    (enc : JsString) (h : encodeURIComponent (ToString s.M3uUrl) = .ok enc) :
    (runPlugin dir s child).execs =
      [commandLine dir (ToString s.MoviesDirectory) (ToString s.TvShowsDirectory) enc] := by
  rw [runPlugin_of_ok dir s child enc h]
  simp only [commandLine, command_assoc]

/-- The lines runPlugin logs when encodeURIComponent returns. -/
theorem logs_of_ok (dir : JsString) (s : Settings) (child : JsString → ChildResult)
    (enc : JsString) (h : encodeURIComponent (ToString s.M3uUrl) = .ok enc) :
    (runPlugin dir s child).logs =
      callback
        (child (commandLine dir (ToString s.MoviesDirectory)
          (ToString s.TvShowsDirectory) enc)).error
        (child (commandLine dir (ToString s.MoviesDirectory)
          (ToString s.TvShowsDirectory) enc)).stdout
        (child (commandLine dir (ToString s.MoviesDirectory)
          (ToString s.TvShowsDirectory) enc)).stderr := by
  rw [runPlugin_of_ok dir s child enc h]
  simp only [commandLine, command_assoc]

theorem completion_of_ok (dir : JsString) (s : Settings) (child : JsString → ChildResult)
    (enc : JsString) (h : encodeURIComponent (ToString s.M3uUrl) = .ok enc) :
    (runPlugin dir s child).completion = .returned := by
  rw [runPlugin_of_ok dir s child enc h]

/-- An issued command determines the run: it is the command line over the
encoded URL, and the log is what the callback writes for this command. -/
theorem run_of_execs (dir : JsString) (s : Settings) (child : JsString → ChildResult)
    (cmd : JsString) (h : (runPlugin dir s child).execs = [cmd]) :
    ∃ enc, encodeURIComponent (ToString s.M3uUrl) = .ok enc ∧
      cmd = commandLine dir (ToString s.MoviesDirectory) (ToString s.TvShowsDirectory) enc ∧
      (runPlugin dir s child).logs =
        callback (child cmd).error (child cmd).stdout (child cmd).stderr ∧
      (runPlugin dir s child).completion = .returned := by
  obtain ⟨enc, he⟩ := encode_ok_of_execs dir s child cmd h
  rw [execs_of_ok dir s child enc he] at h
  have hc : commandLine dir (ToString s.MoviesDirectory) (ToString s.TvShowsDirectory) enc
      = cmd := by
    simpa using h
  refine ⟨enc, he, hc.symm, ?_, completion_of_ok dir s child enc he⟩
  rw [logs_of_ok dir s child enc he, hc]

/-! ## The claims -/

/-- C1 (as amended): for every configuration (moviesDir, tvShowsDir, url) whose
url has no unpaired surrogate and every script directory dir, one call of
runPlugin issues exactly one exec request, whose command is
"python " ++ dir ++ "/m3utostrm.py --moviesDirectory=" ++ moviesDir ++
" --tvShowsDirectory=" ++ tvShowsDir ++ " --m3uUrl=" ++ encodeURIComponent(url). -/
theorem c1_one_exec_with_exact_command (dir moviesDir tvShowsDir url : JsString)
    (child : JsString → ChildResult) (h : isWellFormed url = true) :
    ∃ enc, encodeURIComponent url = .ok enc ∧
      (runPlugin dir ⟨.string moviesDir, .string tvShowsDir, .string url⟩ child).execs =
        [lit "python " ++ dir ++ lit "/m3utostrm.py --moviesDirectory=" ++ moviesDir ++
          lit " --tvShowsDirectory=" ++ tvShowsDir ++ lit " --m3uUrl=" ++ enc] := by
  obtain ⟨enc, he⟩ := encode_ok_of_wellFormed url h
  exact ⟨enc, he,
    execs_of_ok dir ⟨.string moviesDir, .string tvShowsDir, .string url⟩ child enc he⟩

/-- C1, witness: the configuration of the specification's example in the
directory /opt/plugin. -/
theorem c1_one_exec_with_exact_command_witness :
    isWellFormed (lit "http://host/list.m3u?a=1") = true ∧
    ∃ enc, encodeURIComponent (lit "http://host/list.m3u?a=1") = .ok enc ∧
      (runPlugin (lit "/opt/plugin")
        ⟨.string (lit "/media/movies"), .string (lit "/media/tv"),
          .string (lit "http://host/list.m3u?a=1")⟩ (fun _ => ⟨.null, [], []⟩)).execs =
        [lit "python " ++ lit "/opt/plugin" ++ lit "/m3utostrm.py --moviesDirectory=" ++
          lit "/media/movies" ++ lit " --tvShowsDirectory=" ++ lit "/media/tv" ++
          lit " --m3uUrl=" ++ enc] :=
  ⟨by decide, c1_one_exec_with_exact_command (lit "/opt/plugin") (lit "/media/movies")
    (lit "/media/tv") (lit "http://host/list.m3u?a=1") (fun _ => ⟨.null, [], []⟩) (by decide)⟩

/-- C1, counterexample: with the URL "\uD800" (one unpaired leading surrogate)
runPlugin issues no exec request at all; it ends by throwing URIError. -/
theorem c1_counterexample_unpaired_surrogate :
    runPlugin (lit "/opt/plugin")
      ⟨.string (lit "/media/movies"), .string (lit "/media/tv"), .string [cu 0xD800]⟩
      (fun _ => ⟨.null, [], []⟩) =
    { execs := [], logs := [], completion := .threw .URIError } := by
  decide

/-- C2: for every playlist URL string url, whenever runPlugin issues its command,
the value after "--m3uUrl=" is encodeURIComponent(url), and decodeURIComponent
of that value returns url exactly. -/
theorem c2_decode_recovers_url (dir : JsString) (m t : JsValue) (url : JsString)
    (child : JsString → ChildResult) (cmd : JsString)
    (h : (runPlugin dir ⟨m, t, .string url⟩ child).execs = [cmd]) :
    ∃ enc, cmd = commandLine dir (ToString m) (ToString t) enc ∧
      encodeURIComponent url = .ok enc ∧ decodeURIComponent enc = .ok url := by
  obtain ⟨enc, he, hc, _, _⟩ := run_of_execs dir ⟨m, t, .string url⟩ child cmd h
  exact ⟨enc, hc, he, decode_encode url enc he⟩

/-- C2, witness: a URL with a space, `&`, `=`, `?` and a character outside the
Basic Multilingual Plane (U+1F600 as the pair D83D DE00). -/
theorem c2_decode_recovers_url_witness :
    (runPlugin (lit "/p") ⟨.string (lit "/m"), .string (lit "/t"),
        .string (lit "h?a=1&b= " ++ [cu 0xD83D, cu 0xDE00])⟩ (fun _ => ⟨.null, [], []⟩)).execs =
      [lit "python /p/m3utostrm.py --moviesDirectory=/m --tvShowsDirectory=/t --m3uUrl=h%3Fa%3D1%26b%3D%20%F0%9F%98%80"] ∧
    ∃ enc, lit "python /p/m3utostrm.py --moviesDirectory=/m --tvShowsDirectory=/t --m3uUrl=h%3Fa%3D1%26b%3D%20%F0%9F%98%80" =
        commandLine (lit "/p") (lit "/m") (lit "/t") enc ∧
      encodeURIComponent (lit "h?a=1&b= " ++ [cu 0xD83D, cu 0xDE00]) = .ok enc ∧
      decodeURIComponent enc = .ok (lit "h?a=1&b= " ++ [cu 0xD83D, cu 0xDE00]) :=
  ⟨by decide, c2_decode_recovers_url (lit "/p") (.string (lit "/m")) (.string (lit "/t"))
    (lit "h?a=1&b= " ++ [cu 0xD83D, cu 0xDE00]) (fun _ => ⟨.null, [], []⟩) _ (by decide)⟩

theorem not_reserved_of_encoded_unit (x : CodeUnit)
    (h : (uriUnescaped x.val) ∨ x.val = 0x25 ∨ isUpperHex x.val) : ¬ isReserved x.val := by
  unfold uriUnescaped isUpperHex at h
  unfold isReserved
  omega

/-- C5: for every playlist URL string url, the encoded value runPlugin embeds
after "--m3uUrl=" contains none of space, `&`, `=`, `?`; at each occurrence of
one of them in url the encoded value has its percent escape, between the
encodings of what precedes and what follows; the escapes are %20, %26, %3D, %3F. -/
theorem c5_reserved_characters_escaped (dir : JsString) (m t : JsValue) (url : JsString)
    (child : JsString → ChildResult) (cmd : JsString)
    (h : (runPlugin dir ⟨m, t, .string url⟩ child).execs = [cmd]) :
    ∃ enc, cmd = commandLine dir (ToString m) (ToString t) enc ∧
      encodeURIComponent url = .ok enc ∧
      (∀ x ∈ enc, ¬ isReserved x.val) ∧
      (∀ (a : JsString) (c : CodeUnit) (b : JsString), url = a ++ c :: b → isReserved c.val →
        ∃ ea eb, encodeURIComponent a = .ok ea ∧ encodeURIComponent b = .ok eb ∧
          enc = ea ++ percentEscape c.val ++ eb) ∧
      percentEscape 0x20 = lit "%20" ∧ percentEscape 0x26 = lit "%26" ∧
      percentEscape 0x3D = lit "%3D" ∧ percentEscape 0x3F = lit "%3F" := by
  obtain ⟨enc, he, hc, _, _⟩ := run_of_execs dir ⟨m, t, .string url⟩ child cmd h
  have he2 : encodeURIComponent url = .ok enc := he
  refine ⟨enc, hc, he2, ?_, ?_, by decide, by decide, by decide, by decide⟩
  · intro x hx
    apply not_reserved_of_encoded_unit
    rcases encode_units url enc he2 x hx with h1 | h2
    · exact Or.inl h1.1
    · exact Or.inr h2
  · intro a c b hab hres
    have hnt : ¬ isTrailingSurrogate c.val := by
      unfold isReserved at hres
      unfold isTrailingSurrogate
      omega
    rw [hab] at he2
    obtain ⟨ea, er, h1, h2, h3⟩ := encode_split a c b hnt enc he2
    rw [encode_cons_reserved c b hres] at h2
    obtain ⟨eb, h4, h5⟩ := map_eq_ok h2
    exact ⟨ea, eb, h1, h4, by rw [h3, h5, List.append_assoc]⟩

/-- C5, witness: the URL "a b&c=d?e". -/
theorem c5_reserved_characters_escaped_witness :
    ∃ enc, lit "python /p/m3utostrm.py --moviesDirectory=/m --tvShowsDirectory=/t --m3uUrl=a%20b%26c%3Dd%3Fe" =
        commandLine (lit "/p") (lit "/m") (lit "/t") enc ∧
      encodeURIComponent (lit "a b&c=d?e") = .ok enc ∧
      (∀ x ∈ enc, ¬ isReserved x.val) ∧
      (∀ (a : JsString) (c : CodeUnit) (b : JsString),
        lit "a b&c=d?e" = a ++ c :: b → isReserved c.val →
        ∃ ea eb, encodeURIComponent a = .ok ea ∧ encodeURIComponent b = .ok eb ∧
          enc = ea ++ percentEscape c.val ++ eb) ∧
      percentEscape 0x20 = lit "%20" ∧ percentEscape 0x26 = lit "%26" ∧
      percentEscape 0x3D = lit "%3D" ∧ percentEscape 0x3F = lit "%3F" :=
  c5_reserved_characters_escaped (lit "/p") (.string (lit "/m")) (.string (lit "/t"))
    (lit "a b&c=d?e") (fun _ => ⟨.null, [], []⟩) _ (by decide)

/-- C6: for the configuration MoviesDirectory "/media/movies", TvShowsDirectory
"/media/tv", M3uUrl "http://host/list.m3u?a=1", in every script directory,
runPlugin issues one command, and it contains the substring
"--m3uUrl=http%3A%2F%2Fhost%2Flist.m3u%3Fa%3D1". -/
theorem c6_example_command (dir : JsString) (child : JsString → ChildResult) :
    ∃ cmd, (runPlugin dir ⟨.string (lit "/media/movies"), .string (lit "/media/tv"),
        .string (lit "http://host/list.m3u?a=1")⟩ child).execs = [cmd] ∧
      lit "--m3uUrl=http%3A%2F%2Fhost%2Flist.m3u%3Fa%3D1" <:+: cmd := by
  have he : encodeURIComponent (ToString (Settings.mk (.string (lit "/media/movies"))
      (.string (lit "/media/tv")) (.string (lit "http://host/list.m3u?a=1"))).M3uUrl) =
      .ok (lit "http%3A%2F%2Fhost%2Flist.m3u%3Fa%3D1") := by decide
  refine ⟨_, execs_of_ok dir _ child _ he, ?_⟩
  refine ⟨lit "python " ++ dir ++ lit "/m3utostrm.py --moviesDirectory=" ++
    lit "/media/movies" ++ lit " --tvShowsDirectory=" ++ lit "/media/tv" ++ lit " ", [], ?_⟩
  have hl : lit " --m3uUrl=" = lit " " ++ lit "--m3uUrl=" := by decide
  have hn : lit "--m3uUrl=http%3A%2F%2Fhost%2Flist.m3u%3Fa%3D1" =
      lit "--m3uUrl=" ++ lit "http%3A%2F%2Fhost%2Flist.m3u%3Fa%3D1" := by decide
  simp only [commandLine, ToString, hl, hn, List.append_assoc, List.append_nil]

theorem callback_of_not_null (error : JsValue) (stdout stderr : JsString)
    (h : error ≠ JsValue.null) :
    callback error stdout stderr = [lit "exec error: " ++ ToString error] := by
  unfold callback
  rw [if_pos h]

theorem callback_of_null (stdout stderr : JsString) :
    callback JsValue.null stdout stderr = [lit "Plugin executed successfully"] := by
  unfold callback
  rw [if_neg (by simp)]

/-- C7: for every configuration, when the child process of the issued command
reports a non-null error, runPlugin writes exactly one log line, namely
"exec error: " followed by the error's text (its ToString); the success line is
not written; and runPlugin returns to its caller without throwing. -/
theorem c7_error_is_logged_once (dir : JsString) (s : Settings)
    (child : JsString → ChildResult) (cmd : JsString)
    (h : (runPlugin dir s child).execs = [cmd]) (he : (child cmd).error ≠ JsValue.null) :
    (runPlugin dir s child).logs = [lit "exec error: " ++ ToString (child cmd).error] ∧
      lit "Plugin executed successfully" ∉ (runPlugin dir s child).logs ∧
      (runPlugin dir s child).completion = .returned := by
  obtain ⟨enc, _, _, hl, hc⟩ := run_of_execs dir s child cmd h
  rw [callback_of_not_null _ _ _ he] at hl
  refine ⟨hl, ?_, hc⟩
  rw [hl, List.mem_singleton]
  intro heq
  have h0 := congrArg List.head? heq
  have hs : (lit "Plugin executed successfully").head? = some (cu 0x50) := by decide
  have hx : (lit "exec error: " ++ ToString (child cmd).error).head? = some (cu 0x65) := by
    have : lit "exec error: " = cu 0x65 :: lit "xec error: " := by decide
    rw [this]
    rfl
  rw [hs, hx] at h0
  exact absurd h0 (by decide)

/-- C7, witness: the child fails with the Error "Command failed: python". -/
theorem c7_error_is_logged_once_witness :
    (runPlugin (lit "/p") ⟨.string (lit "/m"), .string (lit "/t"), .string (lit "u")⟩
        (fun _ => ⟨.errorObject (lit "Error") (lit "Command failed: python"), [], []⟩)).logs =
      [lit "exec error: Error: Command failed: python"] ∧
    (runPlugin (lit "/p") ⟨.string (lit "/m"), .string (lit "/t"), .string (lit "u")⟩
        (fun _ => ⟨.errorObject (lit "Error") (lit "Command failed: python"), [], []⟩)).logs =
      [lit "exec error: " ++
        ToString (.errorObject (lit "Error") (lit "Command failed: python"))] ∧
    lit "Plugin executed successfully" ∉
      (runPlugin (lit "/p") ⟨.string (lit "/m"), .string (lit "/t"), .string (lit "u")⟩
        (fun _ => ⟨.errorObject (lit "Error") (lit "Command failed: python"), [], []⟩)).logs ∧
    (runPlugin (lit "/p") ⟨.string (lit "/m"), .string (lit "/t"), .string (lit "u")⟩
        (fun _ => ⟨.errorObject (lit "Error") (lit "Command failed: python"), [], []⟩)).completion
      = .returned :=
  ⟨by decide, c7_error_is_logged_once (lit "/p")
    ⟨.string (lit "/m"), .string (lit "/t"), .string (lit "u")⟩
    (fun _ => ⟨.errorObject (lit "Error") (lit "Command failed: python"), [], []⟩)
    (lit "python /p/m3utostrm.py --moviesDirectory=/m --tvShowsDirectory=/t --m3uUrl=u")
    (by decide) (by decide)⟩

/-- C8: for every configuration, when the child process of the issued command
completes with a null error, runPlugin writes exactly one log line, the fixed
line "Plugin executed successfully"; no line starting with "exec error: " is
written; and runPlugin returns. -/
theorem c8_success_is_logged_once (dir : JsString) (s : Settings)
    (child : JsString → ChildResult) (cmd : JsString)
    (h : (runPlugin dir s child).execs = [cmd]) (he : (child cmd).error = JsValue.null) :
    (runPlugin dir s child).logs = [lit "Plugin executed successfully"] ∧
      (∀ l ∈ (runPlugin dir s child).logs, ¬ lit "exec error: " <+: l) ∧
      (runPlugin dir s child).completion = .returned := by
  obtain ⟨enc, _, _, hl, hc⟩ := run_of_execs dir s child cmd h
  rw [he, callback_of_null] at hl
  refine ⟨hl, ?_, hc⟩
  intro l hmem
  rw [hl, List.mem_singleton] at hmem
  rw [hmem]
  decide

/-- C8, witness: the child exits with code 0, its output is ignored. -/
theorem c8_success_is_logged_once_witness :
    (runPlugin (lit "/p") ⟨.string (lit "/m"), .string (lit "/t"), .string (lit "u")⟩
        (fun _ => ⟨.null, lit "done", lit "warning"⟩)).logs =
      [lit "Plugin executed successfully"] ∧
    (∀ l ∈ (runPlugin (lit "/p") ⟨.string (lit "/m"), .string (lit "/t"), .string (lit "u")⟩
        (fun _ => ⟨.null, lit "done", lit "warning"⟩)).logs, ¬ lit "exec error: " <+: l) ∧
    (runPlugin (lit "/p") ⟨.string (lit "/m"), .string (lit "/t"), .string (lit "u")⟩
        (fun _ => ⟨.null, lit "done", lit "warning"⟩)).completion = .returned :=
  c8_success_is_logged_once (lit "/p")
    ⟨.string (lit "/m"), .string (lit "/t"), .string (lit "u")⟩
    (fun _ => ⟨.null, lit "done", lit "warning"⟩)
    (lit "python /p/m3utostrm.py --moviesDirectory=/m --tvShowsDirectory=/t --m3uUrl=u")
    (by decide) (by decide)

/-- C9: the log does not depend on the child's standard output and standard
error: for every error value and any two pairs (stdout1, stderr1),
(stdout2, stderr2) the completion callback writes the same lines, and so does
the whole run of runPlugin for every configuration. -/
theorem c9_log_independent_of_child_output :
    (∀ (error : JsValue) (stdout1 stderr1 stdout2 stderr2 : JsString),
      callback error stdout1 stderr1 = callback error stdout2 stderr2) ∧
    (∀ (dir : JsString) (s : Settings) (error : JsValue)
      (stdout1 stderr1 stdout2 stderr2 : JsString),
      (runPlugin dir s (fun _ => ⟨error, stdout1, stderr1⟩)).logs =
        (runPlugin dir s (fun _ => ⟨error, stdout2, stderr2⟩)).logs) := by
  constructor
  · intro error stdout1 stderr1 stdout2 stderr2
    rfl
  · intro dir s error stdout1 stderr1 stdout2 stderr2
    cases he : encodeURIComponent (ToString s.M3uUrl) with
    | error e => rw [runPlugin_of_error dir s _ e he, runPlugin_of_error dir s _ e he]
    | ok enc => rw [logs_of_ok dir s _ enc he, logs_of_ok dir s _ enc he]; rfl

/-- C10 (as amended): runPlugin does not check that the configuration values are
present. For every settings record whose M3uUrl is absent or has a text without
unpaired surrogate, runPlugin issues exactly one exec request, and each of
MoviesDirectory, TvShowsDirectory, M3uUrl that is absent (undefined) appears in
the command with the literal text "undefined" as the value of its argument. -/
theorem c10_absent_setting_is_undefined (dir : JsString) (s : Settings)
    (child : JsString → ChildResult)
    (h : s.M3uUrl = JsValue.undefined ∨ isWellFormed (ToString s.M3uUrl) = true) :
    ∃ m t u, (runPlugin dir s child).execs = [commandLine dir m t u] ∧
      m = ToString s.MoviesDirectory ∧ t = ToString s.TvShowsDirectory ∧
      encodeURIComponent (ToString s.M3uUrl) = .ok u ∧
      (s.MoviesDirectory = JsValue.undefined → m = lit "undefined") ∧
      (s.TvShowsDirectory = JsValue.undefined → t = lit "undefined") ∧
      (s.M3uUrl = JsValue.undefined → u = lit "undefined") := by
  have hw : isWellFormed (ToString s.M3uUrl) = true := by
    rcases h with h | h
    · rw [h]; decide
    · exact h
  obtain ⟨enc, he⟩ := encode_ok_of_wellFormed _ hw
  refine ⟨_, _, enc, execs_of_ok dir s child enc he, rfl, rfl, he, ?_, ?_, ?_⟩
  · intro hm; rw [hm]; rfl
  · intro ht; rw [ht]; rfl
  · intro hu
    rw [hu] at he
    have hd : encodeURIComponent (ToString JsValue.undefined) = .ok (lit "undefined") := by
      decide
    rw [hd] at he
    cases he
    rfl

/-- C10, witness: all three settings absent. -/
theorem c10_absent_setting_is_undefined_witness :
    (runPlugin (lit "/p") ⟨.undefined, .undefined, .undefined⟩
        (fun _ => ⟨.null, [], []⟩)).execs =
      [lit "python /p/m3utostrm.py --moviesDirectory=undefined --tvShowsDirectory=undefined --m3uUrl=undefined"] ∧
    ∃ m t u, (runPlugin (lit "/p") ⟨.undefined, .undefined, .undefined⟩
        (fun _ => ⟨.null, [], []⟩)).execs = [commandLine (lit "/p") m t u] ∧
      m = ToString JsValue.undefined ∧ t = ToString JsValue.undefined ∧
      encodeURIComponent (ToString JsValue.undefined) = .ok u ∧
      (JsValue.undefined = JsValue.undefined → m = lit "undefined") ∧
      (JsValue.undefined = JsValue.undefined → t = lit "undefined") ∧
      (JsValue.undefined = JsValue.undefined → u = lit "undefined") :=
  ⟨by decide, c10_absent_setting_is_undefined (lit "/p") ⟨.undefined, .undefined, .undefined⟩
    (fun _ => ⟨.null, [], []⟩) (Or.inl rfl)⟩

/-- C10, counterexample: MoviesDirectory is absent and M3uUrl is "http://host/"
followed by the unpaired leading surrogate DBFF; runPlugin issues no exec
request and throws URIError. -/
theorem c10_counterexample_absent_and_unpaired :
    runPlugin (lit "/opt/plugin")
      ⟨.undefined, .string (lit "/media/tv"), .string (lit "http://host/" ++ [cu 0xDBFF])⟩
      (fun _ => ⟨.null, [], []⟩) =
    { execs := [], logs := [], completion := .threw .URIError } := by
  decide

theorem encoded_unit_not_blank (x : CodeUnit)
    (h : (uriUnescaped x.val) ∨ x.val = 0x25 ∨ isUpperHex x.val) : ¬ isBlank x.val := by
  unfold uriUnescaped isUpperHex at h
  unfold isBlank
  omega

theorem encoded_unit_special (x : CodeUnit)
    (h : (uriUnescaped x.val) ∨ x.val = 0x25 ∨ isUpperHex x.val)
    (hs : isShellSpecial x.val) : isUnescapedSpecial x.val ∧ uriUnescaped x.val := by
  unfold uriUnescaped isUpperHex at h
  unfold isShellSpecial at hs
  unfold isUnescapedSpecial uriUnescaped
  omega

/-- C4 (as amended): for every playlist URL string url, the encoded value
runPlugin embeds after "--m3uUrl=" contains no white space, and the only
special characters it can contain are `! * ' ( )`, each copied unescaped from
url (so none of `& ; | < > $` backquote, backslash, `" ?` occurs); when url
contains none of `! * ' ( )`, the encoded value is one plain word. -/
theorem c4_encoded_url_as_token (dir : JsString) (m t : JsValue) (url : JsString)
    (child : JsString → ChildResult) (cmd : JsString)
    (h : (runPlugin dir ⟨m, t, .string url⟩ child).execs = [cmd]) :
    ∃ enc, cmd = commandLine dir (ToString m) (ToString t) enc ∧
      encodeURIComponent url = .ok enc ∧
      (∀ x ∈ enc, ¬ isBlank x.val) ∧
      (∀ x ∈ enc, isShellSpecial x.val → isUnescapedSpecial x.val ∧ x ∈ url) ∧
      ((∀ x ∈ url, ¬ isUnescapedSpecial x.val) → isPlainWord enc) := by
  obtain ⟨enc, he, hc, _, _⟩ := run_of_execs dir ⟨m, t, .string url⟩ child cmd h
  have he2 : encodeURIComponent url = .ok enc := he
  have hunits := encode_units url enc he2
  have weaken : ∀ x ∈ enc, (uriUnescaped x.val) ∨ x.val = 0x25 ∨ isUpperHex x.val := by
    intro x hx
    rcases hunits x hx with h1 | h2
    · exact Or.inl h1.1
    · exact Or.inr h2
  have hspecial : ∀ x ∈ enc, isShellSpecial x.val → isUnescapedSpecial x.val ∧ x ∈ url := by
    intro x hx hs
    have h1 := encoded_unit_special x (weaken x hx) hs
    refine ⟨h1.1, ?_⟩
    rcases hunits x hx with h2 | h3
    · exact h2.2
    · exfalso
      have hu := h1.1
      unfold isUnescapedSpecial at hu
      unfold isUpperHex at h3
      omega
  refine ⟨enc, hc, he2, fun x hx => encoded_unit_not_blank x (weaken x hx), hspecial, ?_⟩
  intro hnone x hx
  refine ⟨encoded_unit_not_blank x (weaken x hx), ?_⟩
  intro hs
  obtain ⟨h1, h2⟩ := hspecial x hx hs
  exact hnone x h2 h1

/-- C4, witness: the URL "http://host/a b" has none of the unescaped specials. -/
theorem c4_encoded_url_as_token_witness :
    ∃ enc, lit "python /p/m3utostrm.py --moviesDirectory=/m --tvShowsDirectory=/t --m3uUrl=http%3A%2F%2Fhost%2Fa%20b" =
        commandLine (lit "/p") (lit "/m") (lit "/t") enc ∧
      encodeURIComponent (lit "http://host/a b") = .ok enc ∧
      (∀ x ∈ enc, ¬ isBlank x.val) ∧
      (∀ x ∈ enc, isShellSpecial x.val →
        isUnescapedSpecial x.val ∧ x ∈ lit "http://host/a b") ∧
      ((∀ x ∈ lit "http://host/a b", ¬ isUnescapedSpecial x.val) → isPlainWord enc) :=
  c4_encoded_url_as_token (lit "/p") (.string (lit "/m")) (.string (lit "/t"))
    (lit "http://host/a b") (fun _ => ⟨.null, [], []⟩) _ (by decide)

/-- C4, counterexample: the URL x'(y)*! (x, apostrophe, parenthesised y, star,
exclamation mark) is embedded unchanged: the encoded value contains the
apostrophe, a special character, and the command is outside the fragment the
shell splits at white space only. -/
theorem c4_counterexample_unescaped_specials :
    encodeURIComponent (lit "x" ++ [cu 0x27] ++ lit "(y)*!") =
      .ok (lit "x" ++ [cu 0x27] ++ lit "(y)*!") ∧
    (runPlugin (lit "/p") ⟨.string (lit "/m"), .string (lit "/t"),
        .string (lit "x" ++ [cu 0x27] ++ lit "(y)*!")⟩ (fun _ => ⟨.null, [], []⟩)).execs =
      [lit "python /p/m3utostrm.py --moviesDirectory=/m --tvShowsDirectory=/t --m3uUrl=x" ++
        [cu 0x27] ++ lit "(y)*!"] ∧
    cu 0x27 ∈ lit "x" ++ [cu 0x27] ++ lit "(y)*!" ∧ isShellSpecial (cu 0x27).val ∧
    ¬ isPlainWord (lit "x" ++ [cu 0x27] ++ lit "(y)*!") ∧
    splitCommandLine
      (lit "python /p/m3utostrm.py --moviesDirectory=/m --tvShowsDirectory=/t --m3uUrl=x" ++
        [cu 0x27] ++ lit "(y)*!") = none := by
  refine ⟨by decide, by decide, by decide, by decide, by decide, by decide⟩

/-! ## Lemmas: from the command to the argument vector -/

/-- The command line as words separated by single spaces. -/
theorem commandLine_words (dir m t enc : JsString) :
    commandLine dir m t enc =
      lit "python" ++ cu 0x20 :: ((dir ++ lit "/m3utostrm.py") ++ cu 0x20 ::
        ((lit "--moviesDirectory=" ++ m) ++ cu 0x20 ::
          ((lit "--tvShowsDirectory=" ++ t) ++ cu 0x20 :: (lit "--m3uUrl=" ++ enc)))) := by
  have h1 : lit "python " = lit "python" ++ [cu 0x20] := by decide
  have h2 : lit "/m3utostrm.py --moviesDirectory=" =
      lit "/m3utostrm.py" ++ [cu 0x20] ++ lit "--moviesDirectory=" := by decide
  have h3 : lit " --tvShowsDirectory=" = [cu 0x20] ++ lit "--tvShowsDirectory=" := by decide
  have h4 : lit " --m3uUrl=" = [cu 0x20] ++ lit "--m3uUrl=" := by decide
  unfold commandLine
  rw [h1, h2, h3, h4]
  simp only [List.append_assoc, List.singleton_append, List.cons_append, List.nil_append]

theorem toWellFormed_of_wellFormed (w : JsString) (h : isWellFormed w = true) :
    toWellFormed w = w := by
  induction w using isWellFormed.induct with
  | case1 => rfl
  | case2 c hl d rest2 ht ih =>
    rw [wellFormed_cons_pair c d rest2 hl ht] at h
    rw [toWellFormed.eq_def]
    simp only [hl, ht, if_true]
    rw [ih h]
  | case3 c hl d rest2 ht => rw [wellFormed_lead_unpaired c d rest2 hl ht] at h; cases h
  | case4 c hl => rw [wellFormed_lead_alone c hl] at h; cases h
  | case5 c rest hl ht => rw [wellFormed_cons_trail c rest hl ht] at h; cases h
  | case6 c rest hl ht ih =>
    rw [wellFormed_cons_plain c rest hl ht] at h
    rw [toWellFormed.eq_def]
    simp only [hl, ht, if_false]
    rw [ih h]

theorem wellFormed_append (a b : JsString) (ha : isWellFormed a = true)
    (hb : isWellFormed b = true) : isWellFormed (a ++ b) = true := by
  induction a using isWellFormed.induct with
  | case1 => exact hb
  | case2 c hl d rest2 ht ih =>
    rw [wellFormed_cons_pair c d rest2 hl ht] at ha
    rw [List.cons_append, List.cons_append, wellFormed_cons_pair c d _ hl ht]
    exact ih ha
  | case3 c hl d rest2 ht => rw [wellFormed_lead_unpaired c d rest2 hl ht] at ha; cases ha
  | case4 c hl => rw [wellFormed_lead_alone c hl] at ha; cases ha
  | case5 c rest hl ht => rw [wellFormed_cons_trail c rest hl ht] at ha; cases ha
  | case6 c rest hl ht ih =>
    rw [wellFormed_cons_plain c rest hl ht] at ha
    rw [List.cons_append, wellFormed_cons_plain c _ hl ht]
    exact ih ha

theorem argumentText_append {a b : JsString} (ha : isArgumentText a)
    (hb : isArgumentText b) : isArgumentText (a ++ b) := by
  refine ⟨wellFormed_append a b ha.1 hb.1, ?_⟩
  intro x hx
  rcases List.mem_append.mp hx with h | h
  · exact ha.2 x h
  · exact hb.2 x h

theorem argumentText_no_separator {w : JsString} (h : isArgumentText w) :
    ∀ x ∈ w, ¬ isFieldSeparator x.val :=
  fun x hx => (h.2 x hx).2.1

theorem command_join {a b : JsString} (ha : isArgumentText a)
    (hb : isWellFormed b = true ∧ ∀ x ∈ b, x.val ≠ 0 ∧ ¬ isShellMeta x.val) :
    isWellFormed (a ++ cu 0x20 :: b) = true ∧
      ∀ x ∈ a ++ cu 0x20 :: b, x.val ≠ 0 ∧ ¬ isShellMeta x.val := by
  constructor
  · apply wellFormed_append a _ ha.1
    rw [wellFormed_cons_plain (cu 0x20) b (by decide) (by decide)]
    exact hb.1
  · intro x hx
    rcases List.mem_append.mp hx with h | h
    · exact ⟨(ha.2 x h).1, (ha.2 x h).2.2⟩
    · rcases List.mem_cons.mp h with h | h
      · rw [h]; decide
      · exact hb.2 x h

theorem beginsSpecially_append (a b : JsString) (ha : a ≠ []) :
    beginsSpecially (a ++ b) = beginsSpecially a := by
  cases a with
  | nil => exact absurd rfl ha
  | cons c r => rfl

/-- The argument vector of a command line whose parts are argument texts. -/
theorem split_commandLine (dir m t enc : JsString) (hd : isArgumentText dir)
    (hb : beginsSpecially dir = false) (hm : isArgumentText m) (ht : isArgumentText t)
    (he : isArgumentText enc) :
    splitCommandLine (commandLine dir m t enc) = some (argumentVector dir m t enc) := by
  have p1 : isArgumentText (lit "python") := by decide
  have p2 : isArgumentText (dir ++ lit "/m3utostrm.py") := argumentText_append hd (by decide)
  have p3 : isArgumentText (lit "--moviesDirectory=" ++ m) :=
    argumentText_append (by decide) hm
  have p4 : isArgumentText (lit "--tvShowsDirectory=" ++ t) :=
    argumentText_append (by decide) ht
  have p5 : isArgumentText (lit "--m3uUrl=" ++ enc) := argumentText_append (by decide) he
  have n1 : lit "python" ≠ [] := by decide
  have n2 : dir ++ lit "/m3utostrm.py" ≠ [] := by
    intro h
    exact absurd (List.append_eq_nil.mp h).2 (by decide)
  have n3 : lit "--moviesDirectory=" ++ m ≠ [] := by
    intro h
    exact absurd (List.append_eq_nil.mp h).1 (by decide)
  have n4 : lit "--tvShowsDirectory=" ++ t ≠ [] := by
    intro h
    exact absurd (List.append_eq_nil.mp h).1 (by decide)
  have n5 : lit "--m3uUrl=" ++ enc ≠ [] := by
    intro h
    exact absurd (List.append_eq_nil.mp h).1 (by decide)
  have hsp : isFieldSeparator (cu 0x20).val := by decide
  have hcmd := command_join p1 (command_join p2 (command_join p3 (command_join p4
    ⟨p5.1, fun x hx => ⟨(p5.2 x hx).1, (p5.2 x hx).2.2⟩⟩)))
  rw [← commandLine_words] at hcmd
  have hwords : wordsAux [] (commandLine dir m t enc) = argumentVector dir m t enc := by
    rw [commandLine_words, words_cons _ _ _ (argumentText_no_separator p1) n1 hsp,
      words_cons _ _ _ (argumentText_no_separator p2) n2 hsp,
      words_cons _ _ _ (argumentText_no_separator p3) n3 hsp,
      words_cons _ _ _ (argumentText_no_separator p4) n4 hsp,
      words_last _ (argumentText_no_separator p5) n5]
    rfl
  have hnul : (commandLine dir m t enc).any (fun c => decide (c.val = 0)) = false := by
    rw [List.any_eq_false]
    intro x hx
    simpa using (hcmd.2 x hx).1
  have hmeta : (commandLine dir m t enc).any (fun c => decide (isShellMeta c.val)) = false := by
    rw [List.any_eq_false]
    intro x hx
    simpa using (hcmd.2 x hx).2
  have hbegin : (argumentVector dir m t enc).any beginsSpecially = false := by
    have b2 : beginsSpecially (dir ++ lit "/m3utostrm.py") = false := by
      cases dir with
      | nil => decide
      | cons c r => exact hb
    have b3 : beginsSpecially (lit "--moviesDirectory=" ++ m) = false := by
      rw [beginsSpecially_append _ m (by decide)]; decide
    have b4 : beginsSpecially (lit "--tvShowsDirectory=" ++ t) = false := by
      rw [beginsSpecially_append _ t (by decide)]; decide
    have b5 : beginsSpecially (lit "--m3uUrl=" ++ enc) = false := by
      rw [beginsSpecially_append _ enc (by decide)]; decide
    have b1 : beginsSpecially (lit "python") = false := by decide
    simp only [argumentVector, List.any_cons, List.any_nil, b1, b2, b3, b4, b5, Bool.or_self]
  unfold splitCommandLine
  rw [toWellFormed_of_wellFormed _ hcmd.1, hnul, hmeta, hwords, hbegin]
  rfl

theorem encoded_unit_not_separator (x : CodeUnit)
    (h : (uriUnescaped x.val) ∨ x.val = 0x25 ∨ isUpperHex x.val) :
    x.val ≠ 0 ∧ x.val < 0x80 ∧ ¬ isFieldSeparator x.val := by
  unfold uriUnescaped isUpperHex at h
  unfold isFieldSeparator
  omega

theorem encoded_unit_meta (x : CodeUnit)
    (h : (uriUnescaped x.val) ∨ x.val = 0x25 ∨ isUpperHex x.val)
    (hs : isShellMeta x.val) : isUnescapedMeta x.val ∧ ¬ isUpperHex x.val := by
  unfold uriUnescaped isUpperHex at h
  unfold isShellMeta at hs
  unfold isUnescapedMeta isUpperHex
  omega

theorem wellFormed_of_ascii (w : JsString) (h : ∀ x ∈ w, x.val < 0x80) :
    isWellFormed w = true := by
  induction w with
  | nil => rfl
  | cons c r ih =>
    have hc := h c (List.mem_cons_self _ _)
    rw [wellFormed_cons_plain c r (by unfold isLeadingSurrogate; omega)
      (by unfold isTrailingSurrogate; omega)]
    exact ih (fun x hx => h x (List.mem_cons_of_mem _ hx))

/-- The encoded value is an argument text when the URL has none of `* ' ( )`. -/
theorem encoded_argumentText (url enc : JsString) (he : encodeURIComponent url = .ok enc)
    (hu : hasNoUnescapedMeta url) : isArgumentText enc := by
  have hx3 : ∀ x ∈ enc, (uriUnescaped x.val) ∨ x.val = 0x25 ∨ isUpperHex x.val := by
    intro x hx
    rcases encode_units url enc he x hx with h1 | h2
    · exact Or.inl h1.1
    · exact Or.inr h2
  refine ⟨wellFormed_of_ascii enc (fun x hx => (encoded_unit_not_separator x (hx3 x hx)).2.1), ?_⟩
  intro x hx
  have h0 := encoded_unit_not_separator x (hx3 x hx)
  refine ⟨h0.1, h0.2.2, ?_⟩
  intro hs
  have h1 := encoded_unit_meta x (hx3 x hx) hs
  rcases encode_units url enc he x hx with h2 | h3
  · exact hu x h2.2 h1.1
  · rcases h3 with h3 | h3
    · have hq := h1.1
      unfold isUnescapedMeta at hq
      omega
    · exact h1.2 h3

/-- C3 (as amended): for every configuration triple (moviesDir, tvShowsDir, url)
and script directory such that the script directory, moviesDir and tvShowsDir
have no unpaired surrogate and contain no NUL, space, tab, newline or any of
`| & ; < > ( ) $` backquote, backslash, `" ' * ? [ ] { }`, the script
directory does not begin with `#` or `~`, and url contains none of `* ' ( )`:
the command line built by runPlugin reaches the program as the interpreter,
the script and exactly the three named arguments --moviesDirectory=moviesDir,
--tvShowsDirectory=tvShowsDir and --m3uUrl=arg_url with decode(arg_url) = url. -/
theorem c3_arguments_recovered (dir moviesDir tvShowsDir url : JsString)
    (child : JsString → ChildResult) (cmd : JsString)
    (h : (runPlugin dir ⟨.string moviesDir, .string tvShowsDir, .string url⟩ child).execs
      = [cmd])
    (hd : isArgumentText dir) (hb : beginsSpecially dir = false)
    (hm : isArgumentText moviesDir) (ht : isArgumentText tvShowsDir)
    (hu : hasNoUnescapedMeta url) :
    ∃ arg_url, splitCommandLine cmd = some (argumentVector dir moviesDir tvShowsDir arg_url) ∧
      decodeURIComponent arg_url = .ok url := by
  obtain ⟨enc, he, hc, _, _⟩ :=
    run_of_execs dir ⟨.string moviesDir, .string tvShowsDir, .string url⟩ child cmd h
  have he2 : encodeURIComponent url = .ok enc := he
  refine ⟨enc, ?_, decode_encode url enc he2⟩
  rw [hc]
  exact split_commandLine dir moviesDir tvShowsDir enc hd hb hm ht
    (encoded_argumentText url enc he2 hu)

/-- C3, witness: the configuration of the specification's example in the
directory /opt/plugin. -/
theorem c3_arguments_recovered_witness :
    ∃ arg_url,
      splitCommandLine (lit "python /opt/plugin/m3utostrm.py --moviesDirectory=/media/movies --tvShowsDirectory=/media/tv --m3uUrl=http%3A%2F%2Fhost%2Flist.m3u%3Fa%3D1") =
        some (argumentVector (lit "/opt/plugin") (lit "/media/movies") (lit "/media/tv")
          arg_url) ∧
      decodeURIComponent arg_url = .ok (lit "http://host/list.m3u?a=1") :=
  c3_arguments_recovered (lit "/opt/plugin") (lit "/media/movies") (lit "/media/tv")
    (lit "http://host/list.m3u?a=1") (fun _ => ⟨.null, [], []⟩) _ (by decide) (by decide)
    (by decide) (by decide) (by decide) (by decide)

/-- C3, counterexample: with MoviesDirectory "/media/my movies" the command
reaches the program as six words; the value of --moviesDirectory is
"/media/my", not the configured directory, and a stray word "movies" follows. -/
theorem c3_counterexample_directory_with_space :
    (runPlugin (lit "/opt/plugin") ⟨.string (lit "/media/my movies"),
        .string (lit "/media/tv"), .string (lit "http://host/list.m3u")⟩
        (fun _ => ⟨.null, [], []⟩)).execs =
      [lit "python /opt/plugin/m3utostrm.py --moviesDirectory=/media/my movies --tvShowsDirectory=/media/tv --m3uUrl=http%3A%2F%2Fhost%2Flist.m3u"] ∧
    splitCommandLine (lit "python /opt/plugin/m3utostrm.py --moviesDirectory=/media/my movies --tvShowsDirectory=/media/tv --m3uUrl=http%3A%2F%2Fhost%2Flist.m3u") =
      some [lit "python", lit "/opt/plugin/m3utostrm.py", lit "--moviesDirectory=/media/my",
        lit "movies", lit "--tvShowsDirectory=/media/tv",
        lit "--m3uUrl=http%3A%2F%2Fhost%2Flist.m3u"] ∧
    ¬ ∃ arg_url, splitCommandLine (lit "python /opt/plugin/m3utostrm.py --moviesDirectory=/media/my movies --tvShowsDirectory=/media/tv --m3uUrl=http%3A%2F%2Fhost%2Flist.m3u") =
      some (argumentVector (lit "/opt/plugin") (lit "/media/my movies") (lit "/media/tv")
        arg_url) := by
  have hs : splitCommandLine (lit "python /opt/plugin/m3utostrm.py --moviesDirectory=/media/my movies --tvShowsDirectory=/media/tv --m3uUrl=http%3A%2F%2Fhost%2Flist.m3u") =
      some [lit "python", lit "/opt/plugin/m3utostrm.py", lit "--moviesDirectory=/media/my",
        lit "movies", lit "--tvShowsDirectory=/media/tv",
        lit "--m3uUrl=http%3A%2F%2Fhost%2Flist.m3u"] := by decide
  refine ⟨by decide, hs, ?_⟩
  rintro ⟨arg_url, h⟩
  rw [hs] at h
  have hlen := congrArg (fun o => o.map List.length) h
  simp [argumentVector] at hlen

end M3uToStrm
